import Mathlib

/-
Verification of the thread-rolls-counter Detection & Correction Engine.

The reconciliation engine is embedded from `src/backend/app/main.py`
(`save_corrections`, lines 1198-1330) and the vision pipeline from
`src/backend/app/vision.py` (`analyze_image`, `_count_with_mistral`,
`_extract_colors_from_boxes`, `_cage_first_detection`, `_hough_detection`,
`_apply_circle_nms`, `_generate_grid_circles`, `_get_dominant_color`,
`_match_color_name`).

Modelling conventions:
* Python floats carrying percentage coordinates are modelled as rationals
  (the source only compares, subtracts and takes absolute values of them).
* Mutable ORM `Detection` objects are modelled by their position in the
  entry's detection list: mutating an object is `List.set` at its position.
* External collaborators (the Mistral network call, the YOLO model, OpenCV
  primitives such as `cv2.HoughCircles`, contour extraction, colour-space
  conversion and the floating-point trigonometric ring-sample positions)
  are parameters of the embedded functions; every piece of control flow and
  arithmetic written in the repository itself is embedded directly.
* `np.sqrt(d) < t` for `d ≥ 0` is embedded as `0 ≤ t ∧ d < t^2`, which is
  equivalent and keeps everything inside ℚ.
-/

namespace ThreadRolls

/-! ## Reconciliation engine data model (`src/backend/app/main.py`, `models.py`) -/

/-- A corrected bounding box sent by the client (`SaveCorrectionsRequest.corrected_boxes`):
percentage-space rectangle plus label and colour. -/
structure CorrectedBox where
  x : ℚ
  y : ℚ
  width : ℚ
  height : ℚ
  label : String
  color : String
deriving Repr, DecidableEq

/-- A persisted `Detection` row (`models.py`).  `id` is the database primary key;
timestamps are opaque tokens modelled as naturals. -/
structure Detection where
  id : ℕ
  entry_id : ℕ
  x : ℚ
  y : ℚ
  width : ℚ
  height : ℚ
  label : String
  color : String
  confidence : Option ℚ
  is_ai_detected : Bool
  is_corrected : Bool
  is_deleted : Bool
  original_x : Option ℚ
  original_y : Option ℚ
  original_width : Option ℚ
  original_height : Option ℚ
  correction_type : Option String
  corrected_by_user_id : Option ℕ
  corrected_at : Option ℕ
deriving Repr, DecidableEq

/-- The `corrections_stats` dictionary accumulated by `save_corrections`. -/
structure CorrectionStats where
  deleted : ℕ
  added : ℕ
  moved : ℕ
  resized : ℕ
  unchanged : ℕ
deriving Repr, DecidableEq

/-- Mutable state of one `save_corrections` run: the entry's detection rows
(mutated in place by the source), the indices returned by the opening
`ai_detections` query, the `matched_ai_ids` set, the stats dictionary and the
newly inserted detections. -/
structure RunState where
  dets : List Detection
  candIdx : List ℕ
  matchedIds : List ℕ
  stats : CorrectionStats
  newDets : List Detection
deriving Repr

/-- The corrected box whose coordinates, label and colour are exactly those of
an existing detection (used to state the round-trip property). -/
def toCorrectedBox (d : Detection) : CorrectedBox :=
  { x := d.x, y := d.y, width := d.width, height := d.height,
    label := d.label, color := d.color }

/-- A fresh AI detection row as created by the analysis endpoint:
`is_ai_detected = true`, no correction state. -/
def baseDet (idv : ℕ) (xv yv wv hv : ℚ) : Detection :=
  { id := idv, entry_id := 1, x := xv, y := yv, width := wv, height := hv,
    label := "thread_roll", color := "pink", confidence := none,
    is_ai_detected := true, is_corrected := false, is_deleted := false,
    original_x := none, original_y := none, original_width := none,
    original_height := none, correction_type := none,
    corrected_by_user_id := none, corrected_at := none }

/-- The tolerance test of `find_matching_ai_box` (main.py lines 1222-1229):
all four per-axis absolute differences strictly below `tolerance`. -/
def withinTolerance (tolerance : ℚ) (ai : Detection) (cb : CorrectedBox) : Bool :=
  decide (|ai.x - cb.x| < tolerance) && decide (|ai.y - cb.y| < tolerance) &&
  decide (|ai.width - cb.width| < tolerance) && decide (|ai.height - cb.height| < tolerance)

/-- Whether the detection currently stored at position `i` matches `cb` within
`tolerance`. -/
def matchesBox (tolerance : ℚ) (cb : CorrectedBox) (dets : List Detection) (i : ℕ) : Bool :=
  match dets.get? i with
  | some a => withinTolerance tolerance a cb
  | none => false

/-- Source `find_matching_ai_box(corrected_box, ai_boxes, tolerance)` (main.py lines
1221-1230): scan the query result (`cand`, positions into the entry's
detection list) in order and return the first detection within tolerance.
The source returns the mutable object; we return its position. -/
def find_matching_ai_box (tolerance : ℚ) (cb : CorrectedBox) (dets : List Detection)
    (cand : List ℕ) : Option ℕ :=
  cand.find? (matchesBox tolerance cb dets)

/-- The `correction_type` string chosen in the moved/resized branch
(main.py lines 1272-1280). -/
def classifyCorrection (moved resized : Bool) : String :=
  if moved && resized then "moved_resized"
  else if moved then "moved"
  else "resized"

/-- The in-place update applied to a matched detection whose position or size
changed beyond 1.0 (main.py lines 1259-1280). -/
def applyMoveResize (uid ts : ℕ) (cb : CorrectedBox) (moved resized : Bool)
    (a : Detection) : Detection :=
  { a with
    original_x := some a.x
    original_y := some a.y
    original_width := some a.width
    original_height := some a.height
    x := cb.x
    y := cb.y
    width := cb.width
    height := cb.height
    is_corrected := true
    corrected_by_user_id := some uid
    corrected_at := some ts
    correction_type := some (classifyCorrection moved resized) }

/-- The new detection created for a corrected box that matched nothing
(main.py lines 1288-1301).  The database assigns the primary key; we use 0. -/
def newAddedDetection (uid ts eid : ℕ) (cb : CorrectedBox) : Detection :=
  { id := 0
    entry_id := eid
    x := cb.x
    y := cb.y
    width := cb.width
    height := cb.height
    label := cb.label
    color := cb.color
    confidence := none
    is_ai_detected := false
    is_corrected := true
    is_deleted := false
    original_x := none
    original_y := none
    original_width := none
    original_height := none
    correction_type := some "added"
    corrected_by_user_id := some uid
    corrected_at := some ts }

/-- Statistics bump for a matched box (main.py lines 1272-1285). -/
def bumpMatchedStats (moved resized : Bool) (s : CorrectionStats) : CorrectionStats :=
  if moved && resized then { s with moved := s.moved + 1, resized := s.resized + 1 }
  else if moved then { s with moved := s.moved + 1 }
  else if resized then { s with resized := s.resized + 1 }
  else { s with unchanged := s.unchanged + 1 }

/-- The `moved` test of the matched branch (main.py lines 1253-1254):
position changed by strictly more than 1.0 percentage points. -/
def movedB (cb : CorrectedBox) (a : Detection) : Bool :=
  decide (1 < |a.x - cb.x|) || decide (1 < |a.y - cb.y|)

/-- The `resized` test (main.py lines 1255-1256). -/
def resizedB (cb : CorrectedBox) (a : Detection) : Bool :=
  decide (1 < |a.width - cb.width|) || decide (1 < |a.height - cb.height|)

/-- The full update applied to a matched detection (main.py lines 1257-1285):
snapshot-and-overwrite when moved or resized, otherwise only the
`correction_type` field is set to `"unchanged"`. -/
def matchUpdate (uid ts : ℕ) (cb : CorrectedBox) (a : Detection) : Detection :=
  if movedB cb a || resizedB cb a then
    applyMoveResize uid ts cb (movedB cb a) (resizedB cb a) a
  else { a with correction_type := some "unchanged" }

/-- One iteration of the `for corrected_box in request.corrected_boxes` loop
(main.py lines 1243-1302). -/
def processCorrectedBox (uid ts eid : ℕ) (st : RunState) (cb : CorrectedBox) : RunState :=
  match find_matching_ai_box 5 cb st.dets st.candIdx with
  | some i =>
    match st.dets.get? i with
    | some a =>
      { st with
        dets := st.dets.set i (matchUpdate uid ts cb a)
        matchedIds := a.id :: st.matchedIds
        stats := bumpMatchedStats (movedB cb a) (resizedB cb a) st.stats }
    | none => st
  | none =>
    { st with
      newDets := st.newDets ++ [newAddedDetection uid ts eid cb]
      stats := { st.stats with added := st.stats.added + 1 } }

/-- The in-place update of the final `for ai_detection in ai_detections` loop
marking an unmatched detection as deleted (main.py lines 1306-1313). -/
def markDeleted (uid ts : ℕ) (a : Detection) : Detection :=
  { a with
    is_deleted := true
    is_corrected := true
    correction_type := some "deleted"
    corrected_by_user_id := some uid
    corrected_at := some ts }

/-- One iteration of the unmatched-detections loop (main.py lines 1305-1313). -/
def markDeletedStep (uid ts : ℕ) (s : RunState) (i : ℕ) : RunState :=
  match s.dets.get? i with
  | some a =>
    if a.id ∈ s.matchedIds then s
    else
      { s with
        dets := s.dets.set i (markDeleted uid ts a)
        stats := { s.stats with deleted := s.stats.deleted + 1 } }
  | none => s

/-- The full unmatched-detections pass. -/
def markDeletedPass (uid ts : ℕ) (st : RunState) : RunState :=
  st.candIdx.foldl (markDeletedStep uid ts) st

/-- Positions of the detections returned by the opening query
(main.py lines 1214-1219): `is_ai_detected == True`, `is_deleted == False`. -/
def aiCandidateIdx (dets : List Detection) : List ℕ :=
  (List.range dets.length).filter fun i =>
    match dets.get? i with
    | some d => d.is_ai_detected && !d.is_deleted
    | none => false

/-- Initial state of a `save_corrections` run. -/
def initState (dets : List Detection) : RunState :=
  { dets := dets
    candIdx := aiCandidateIdx dets
    matchedIds := []
    stats := ⟨0, 0, 0, 0, 0⟩
    newDets := [] }

/-- Run state after the corrected-boxes loop and the unmatched pass. -/
def reconcileState (uid ts eid : ℕ) (dets : List Detection) (cbs : List CorrectedBox) :
    RunState :=
  markDeletedPass uid ts (cbs.foldl (processCorrectedBox uid ts eid) (initState dets))

/-- Result of the `/api/save-corrections` endpoint as it affects the engine's
state: updated detection rows, inserted rows, stats, and the owning entry's
`final_count` / `was_edited_by_user` fields (main.py lines 1316-1318). -/
structure SaveResult where
  dets : List Detection
  newDets : List Detection
  stats : CorrectionStats
  final_count : ℕ
  was_edited : Bool
deriving Repr

/-- Source `save_corrections` (main.py lines 1198-1330), modelled on an entry whose
detection rows are `dets`. -/
def save_corrections (uid ts eid : ℕ) (dets : List Detection) (cbs : List CorrectedBox) :
    SaveResult :=
  let st := reconcileState uid ts eid dets cbs
  { dets := st.dets
    newDets := st.newDets
    stats := st.stats
    final_count := cbs.length
    was_edited := true }

/-! ## Vision pipeline data model (`src/backend/app/vision.py`) -/

/-- A detected circle `[cx, cy, r]` in pixel coordinates. -/
structure Circle where
  cx : ℤ
  cy : ℤ
  r : ℤ
deriving Repr, DecidableEq

/-- The result dictionary produced by every detection path of
`analyze_image`: `total_threads`, `color_breakdown`, `detected_circles`,
`detection_method`. -/
structure DetResult where
  total_threads : ℕ
  color_breakdown : List (String × ℕ)
  detected_circles : List Circle
  detection_method : String
deriving Repr, DecidableEq

/-- Python `sum(color_breakdown.values())`. -/
def breakdownSum (l : List (String × ℕ)) : ℕ :=
  (l.map Prod.snd).sum

/-- Python `color_counts[c] = color_counts.get(c, 0) + 1`. -/
def incColor : List (String × ℕ) → String → List (String × ℕ)
  | [], c => [(c, 1)]
  | (k, n) :: rest, c =>
    if k = c then (k, n + 1) :: rest else (k, n) :: incColor rest c

/-- The result assembled by `_count_with_mistral` (vision.py lines 284-298)
once the remote reply has been parsed.  The network call and JSON parsing are
external; `mistral_count` and `color` are the parsed reply, and `circles` is
the output of `_generate_grid_circles(img, mistral_count)`.  The source uses
the actual detected count `len(circles)`, not the remote estimate. -/
def count_with_mistral_result (mistral_count : ℕ) (color : String) (circles : List Circle) :
    Option DetResult :=
  if 0 < mistral_count then
    some { total_threads := circles.length
           color_breakdown := [(color, circles.length)]
           detected_circles := circles
           detection_method := "Vision Detection (" ++ toString circles.length ++ " rolls)" }
  else none

/-- A YOLO detection kept by `_detect_with_yolo_in_region`: integer
`bbox = [x1, y1, x2, y2]` (pixel coordinates, non-negative) and the model's
class name when present. -/
structure YoloDet where
  x1 : ℕ
  y1 : ℕ
  x2 : ℕ
  y2 : ℕ
  class_name : Option String
deriving Repr, DecidableEq

/-- Size test of `roi = img[y1:y2, x1:x2]`; the slice is non-empty exactly when
both clipped extents are positive (vision.py line 988: `if roi.size > 0`). -/
def roiNonempty (w h : ℕ) (d : YoloDet) : Bool :=
  decide (0 < min d.y2 h - min d.y1 h) && decide (0 < min d.x2 w - min d.x1 w)

/-- Python truthiness of `detection.get('class_name')`: present and non-empty. -/
def classTruthy (d : YoloDet) : Bool :=
  match d.class_name with
  | some cn => decide (cn ≠ "")
  | none => false

/-- Holds when the first list is an initial segment of the second. -/
def startsWithChars : List Char → List Char → Bool
  | [], _ => true
  | _ :: _, [] => false
  | p :: ps, c :: cs => decide (p = c) && startsWithChars ps cs

/-- Python's `pat in s` substring test. -/
def containsChars (pat : List Char) : List Char → Bool
  | [] => decide (pat = [])
  | c :: rest => startsWithChars pat (c :: rest) || containsChars pat rest

/-- Substring test on strings (Python `pat in s`). -/
def strContains (s pat : String) : Bool :=
  containsChars pat.data s.data

/-- Lower-casing used by `class_name.lower()`. -/
def strLower (s : String) : String :=
  String.mk (s.data.map Char.toLower)

/-- Colour chosen from a custom-model class name
(vision.py lines 975-984). -/
def classColorName (cn : String) : String :=
  if strContains (strLower cn) "pink" then "pink"
  else if strContains (strLower cn) "orange" || strContains (strLower cn) "brown" then "orange"
  else if strContains (strLower cn) "yellow" then "yellow"
  else cn

/-- One iteration of the `_extract_colors_from_boxes` loop (vision.py lines
969-991).  `domColor` is `self._get_dominant_color(roi)` applied to the box
interior pixels (external image content). -/
def extractColorStep (useCustom : Bool) (w h : ℕ) (domColor : YoloDet → String)
    (counts : List (String × ℕ)) (d : YoloDet) : List (String × ℕ) :=
  if useCustom && classTruthy d then
    incColor counts (classColorName (d.class_name.getD ""))
  else if roiNonempty w h d then
    incColor counts (domColor d)
  else counts

/-- Source `_extract_colors_from_boxes` (vision.py lines 965-993). -/
def extract_colors_from_boxes (useCustom : Bool) (w h : ℕ) (domColor : YoloDet → String)
    (dets : List YoloDet) : List (String × ℕ) :=
  dets.foldl (extractColorStep useCustom w h domColor) []

/-- Circle derived from a YOLO bbox in `analyze_image` (vision.py lines
189-194): centre of the box, radius half the smaller side. -/
def yoloCircleOf (d : YoloDet) : Circle :=
  { cx := ((d.x1 + d.x2) / 2 : ℕ)
    cy := ((d.y1 + d.y2) / 2 : ℕ)
    r := ((min (d.x2 - d.x1) (d.y2 - d.y1)) / 2 : ℕ) }

/-- The result dictionary assembled on the YOLO path of `analyze_image`
(vision.py lines 185-202). -/
def yolo_detection_result (useCustom : Bool) (w h : ℕ) (domColor : YoloDet → String)
    (dets : List YoloDet) : DetResult :=
  { total_threads := dets.length
    color_breakdown := extract_colors_from_boxes useCustom w h domColor dets
    detected_circles := dets.map yoloCircleOf
    detection_method := "YOLOv11 Region" }

/-- The cage bounding rectangle `(cage_x, cage_y, cage_w, cage_h)`. -/
structure CageBounds where
  x : ℤ
  y : ℤ
  w : ℤ
  h : ℤ
deriving Repr, DecidableEq

/-- Bounds test `0 <= sx < width and 0 <= sy < height` applied to every
ring-sample position. -/
def inBoundsPt (w h : ℕ) (p : ℤ × ℤ) : Bool :=
  decide (0 ≤ p.1) && decide (p.1 < (w : ℤ)) && decide (0 ≤ p.2) && decide (p.2 < (h : ℤ))

/-- The in-bounds ring-sample positions collected for one circle in step 3 of
`_cage_first_detection` (vision.py lines 1117-1124).  `samplePos c i` is the
integer pixel position `(int(cx + r*0.6*cos(2*pi*i/8)), int(cy + ...))`
computed by the source in floating point; it is a parameter of the embedding. -/
def circleSamplePts (w h : ℕ) (samplePos : Circle → ℕ → ℤ × ℤ) (c : Circle) :
    List (ℤ × ℤ) :=
  ((List.range 8).map (samplePos c)).filter (inBoundsPt w h)

/-- One iteration of the colour-extraction loop in step 3 of
`_cage_first_detection` (vision.py lines 1113-1133).  `classify pts` is the
mean-colour/HSV classification `_match_color_name(...)` of the sampled pixels
(external image content). -/
def cageColorStep (w h : ℕ) (samplePos : Circle → ℕ → ℤ × ℤ)
    (classify : List (ℤ × ℤ) → String) (counts : List (String × ℕ)) (c : Circle) :
    List (String × ℕ) :=
  let pts := circleSamplePts w h samplePos c
  if pts.isEmpty then counts else incColor counts (classify pts)

/-- Colour breakdown of the cage-first result. -/
def cage_color_counts (w h : ℕ) (samplePos : Circle → ℕ → ℤ × ℤ)
    (classify : List (ℤ × ℤ) → String) (rolls : List Circle) : List (String × ℕ) :=
  rolls.foldl (cageColorStep w h samplePos classify) []

/-- Source `_cage_first_detection` (vision.py lines 1033-1139): when no cage region
is found it returns the empty `No cage` result (lines 1038-1041); otherwise it
assembles the result from the rolls found by the grid/Hough strategies
(`rolls`, whose geometric search over the OpenCV masks is external to this
embedding) and the sampled colours. -/
def cage_first_detection_result (w h : ℕ) (region : Option CageBounds)
    (rolls : List Circle) (samplePos : Circle → ℕ → ℤ × ℤ)
    (classify : List (ℤ × ℤ) → String) : DetResult :=
  match region with
  | none =>
    { total_threads := 0
      color_breakdown := []
      detected_circles := []
      detection_method := "No cage" }
  | some _ =>
    { total_threads := rolls.length
      color_breakdown := cage_color_counts w h samplePos classify rolls
      detected_circles := rolls
      detection_method := "Detection (" ++ toString rolls.length ++ " rolls)" }

/-- Source `analyze_image` (vision.py lines 150-209).  `decoded` is whether
`cv2.imread` succeeded; `mistralStage` is the outcome of the guarded call to
`_count_with_mistral` (`Except.error` models an exception caught by the
`try/except`, `Except.ok none` a `None` return, `Except.ok (some ...)` the
parsed count/colour and the grid circles); `yoloStage` likewise guards
`_detect_with_yolo_in_region`.  The auto-crop step only attaches `crop_info`
metadata and is omitted. -/
def analyze_image (decoded : Bool)
    (mistralStage : Except Unit (Option (ℕ × String × List Circle)))
    (useYolo useCustom : Bool) (w h : ℕ) (domColor : YoloDet → String)
    (yoloStage : Except Unit (List YoloDet))
    (region : Option CageBounds) (rolls : List Circle)
    (samplePos : Circle → ℕ → ℤ × ℤ) (classify : List (ℤ × ℤ) → String) :
    Except String DetResult :=
  if !decoded then Except.error "Could not read image"
  else
    let mres : Option DetResult :=
      match mistralStage with
      | Except.error _ => none
      | Except.ok none => none
      | Except.ok (some (cnt, color, circles)) =>
        match count_with_mistral_result cnt color circles with
        | some r => if 0 < r.total_threads then some r else none
        | none => none
    match mres with
    | some r => Except.ok r
    | none =>
      let yres : Option DetResult :=
        if useYolo then
          match yoloStage with
          | Except.error _ => none
          | Except.ok dets =>
            if 0 < dets.length then some (yolo_detection_result useCustom w h domColor dets)
            else none
        else none
      match yres with
      | some r => Except.ok r
      | none => Except.ok (cage_first_detection_result w h region rolls samplePos classify)

/-! ## Non-maximum suppression and the geometric strategies -/

/-- Squared centre-to-centre distance of two circles. -/
def distSq (a b : Circle) : ℤ :=
  (a.cx - b.cx) ^ 2 + (a.cy - b.cy) ^ 2

/-- The per-candidate threshold `min_distance if min_distance else r * 1.6`
of `_apply_circle_nms` (vision.py line 639): Python truthiness sends both
`None` and `0.0` to the radius-based default. -/
def nmsThreshold (minDist : Option ℚ) (c : Circle) : ℚ :=
  match minDist with
  | some d => if d = 0 then (c.r : ℚ) * (8 / 5) else d
  | none => (c.r : ℚ) * (8 / 5)

/-- The comparison `np.sqrt(distSq) < t`, expressed in ℚ. -/
def distBelow (a b : Circle) (t : ℚ) : Bool :=
  decide (0 ≤ t) && decide ((distSq a b : ℚ) < t ^ 2)

/-- One step of `_apply_circle_nms`: keep `c` unless it is within the
threshold of an already-kept circle (vision.py lines 636-652). -/
def nmsStep (minDist : Option ℚ) (kept : List Circle) (c : Circle) : List Circle :=
  if kept.any (fun k => distBelow c k (nmsThreshold minDist c)) then kept
  else kept ++ [c]

/-- Source `_apply_circle_nms(circles, min_distance)` (vision.py lines 630-653). -/
def apply_circle_nms (circles : List Circle) (minDist : Option ℚ) : List Circle :=
  if circles.length ≤ 1 then circles
  else circles.foldl (nmsStep minDist) []

/-- Tail of `_generate_grid_circles` (vision.py lines 480-486): one circle of
the derived radius per validated centre, then NMS with
`min_distance = radius * 1.8`. -/
def generate_grid_circles_from_centers (centers : List (ℤ × ℤ)) (radius : ℤ) :
    List Circle :=
  apply_circle_nms (centers.map fun c => { cx := c.1, cy := c.2, r := radius })
    (some ((radius : ℚ) * (9 / 5)))

/-- The `(param2, dp)` sweep order of `_hough_detection` (vision.py lines
1160-1161): `param2 in [20, 25, 30, 15, 35]`, `dp in [1.0, 1.2, 0.8, 1.5]`. -/
def houghCombos : List (ℕ × ℚ) :=
  [20, 25, 30, 15, 35].flatMap fun p2 => [(p2, 1), (p2, 6 / 5), (p2, 4 / 5), (p2, 3 / 2)]

/-- Translation of a ROI-relative Hough circle to full-image coordinates
(`full_cx = cage_x + cx`, vision.py lines 1178-1179). -/
def toFullCoords (cage : CageBounds) (c : Circle) : Circle :=
  { cx := cage.x + c.cx, cy := cage.y + c.cy, r := c.r }

/-- Validation of one full-coordinate Hough circle (vision.py lines
1181-1199): strict containment in the cage and at least 5 of 12 ring samples
on the pink mask.  `samplePos12 c i` is the floating-point ring-sample
position `(int(full_cx + r*0.6*cos(2*pi*i/12)), ...)`, a parameter. -/
def houghValidCircle (w h : ℕ) (cage : CageBounds) (pinkMask : ℤ → ℤ → Bool)
    (samplePos12 : Circle → ℕ → ℤ × ℤ) (c : Circle) : Bool :=
  if decide (c.cx - c.r < cage.x) || decide (cage.x + cage.w < c.cx + c.r) then false
  else if decide (c.cy - c.r < cage.y) || decide (cage.y + cage.h < c.cy + c.r) then false
  else
    let hits := ((List.range 12).map (samplePos12 c)).countP fun p =>
      inBoundsPt w h p && pinkMask p.1 p.2
    decide (5 ≤ hits)

/-- One iteration of the parameter sweep of `_hough_detection` (lines
1160-1201): run `cv2.HoughCircles` (external, `houghRaw`), validate each
circle, and keep the valid set whose count is strictly closer to 109. -/
def houghSweepStep (w h : ℕ) (cage : CageBounds) (pinkMask : ℤ → ℤ → Bool)
    (samplePos12 : Circle → ℕ → ℤ × ℤ) (houghRaw : ℕ → ℚ → Option (List Circle))
    (best : List Circle) (combo : ℕ × ℚ) : List Circle :=
  match houghRaw combo.1 combo.2 with
  | none => best
  | some raw =>
    let valid := (raw.map (toFullCoords cage)).filter
      (houghValidCircle w h cage pinkMask samplePos12)
    if 0 < valid.length ∧
        ((valid.length : ℤ) - 109).natAbs < ((best.length : ℤ) - 109).natAbs then valid
    else best

/-- Source `_hough_detection` (vision.py lines 1141-1205): parameter sweep over
`houghCombos`, starting from the empty best set.  Note: no non-maximum
suppression is applied to the surviving circles. -/
def hough_detection (w h : ℕ) (cage : CageBounds) (pinkMask : ℤ → ℤ → Bool)
    (samplePos12 : Circle → ℕ → ℤ × ℤ) (houghRaw : ℕ → ℚ → Option (List Circle)) :
    List Circle :=
  houghCombos.foldl (houghSweepStep w h cage pinkMask samplePos12 houghRaw) []

/-! ## Colour classifier (`_get_dominant_color`, `_match_color_name`) -/

/-- A BGR pixel. -/
structure Pixel where
  b : ℕ
  g : ℕ
  r : ℕ
deriving Repr, DecidableEq

/-- The `self.color_names` HSV range table (vision.py lines 53-66).  The
source stores a flat list of bounds consumed two at a time
(`for i in range(0, len(ranges), 2)`); it is embedded directly as the list of
(lower, upper) pairs. -/
def colorNamesTable : List (String × List ((ℕ × ℕ × ℕ) × (ℕ × ℕ × ℕ))) :=
  [("red", [((0, 100, 100), (10, 255, 255)), ((175, 100, 100), (180, 255, 255))]),
   ("orange", [((11, 100, 100), (25, 255, 255))]),
   ("yellow", [((25, 100, 100), (35, 255, 255))]),
   ("green", [((35, 100, 100), (85, 255, 255))]),
   ("cyan", [((85, 100, 100), (95, 255, 255))]),
   ("blue", [((95, 100, 100), (125, 255, 255))]),
   ("purple", [((125, 100, 100), (145, 255, 255))]),
   ("pink", [((145, 85, 100), (180, 200, 255))]),
   ("white", [((0, 0, 200), (180, 30, 255))]),
   ("gray", [((0, 0, 50), (180, 30, 200))]),
   ("black", [((0, 0, 0), (180, 255, 50))]),
   ("brown", [((10, 100, 20), (20, 255, 200))])]

/-- The range test of the table loop (vision.py lines 1352-1356). -/
def hsvInRange (h s v : ℕ) (lo hi : ℕ × ℕ × ℕ) : Bool :=
  decide (lo.1 ≤ h) && decide (h ≤ hi.1) &&
  decide (lo.2.1 ≤ s) && decide (s ≤ hi.2.1) &&
  decide (lo.2.2 ≤ v) && decide (v ≤ hi.2.2)

/-- The `for color_name, ranges in self.color_names.items()` loop
(vision.py lines 1344-1356): first table entry, in insertion order and
skipping the achromatic and pink entries, with a matching range. -/
def lookupColorTable (h s v : ℕ) : Option String :=
  colorNamesTable.findSome? fun entry =>
    if entry.1 ∈ ["white", "gray", "black", "pink"] then none
    else if entry.2.any (fun p => hsvInRange h s v p.1 p.2) then some entry.1
    else none

/-- Source `_match_color_name(hsv_color)` (vision.py lines 1321-1365). -/
def match_color_name (h s v : ℕ) : String :=
  if s < 30 then
    if v > 200 then "white"
    else if v < 50 then "black"
    else "gray"
  else if 145 ≤ h ∧ h ≤ 180 ∧ 85 ≤ s ∧ s ≤ 200 ∧ 100 ≤ v then "pink"
  else
    match lookupColorTable h s v with
    | some name => name
    | none =>
      if h < 15 ∨ h > 157 then (if s > 100 then "red" else "pink")
      else if h < 30 then "orange"
      else if h < 70 then "yellow"
      else if h < 85 then "green"
      else if h < 125 then "blue"
      else "purple"

/-- Source `_get_dominant_color(pixels)` (vision.py lines 1307-1319).  `toHSV` is
the mean-colour computation and `cv2.cvtColor` BGR→HSV conversion
(external floating-point library calls). -/
def get_dominant_color (toHSV : List Pixel → ℕ × ℕ × ℕ) (pixels : List Pixel) : String :=
  if pixels.length = 0 then "unknown"
  else
    let hsv := toHSV pixels
    match_color_name hsv.1 hsv.2.1 hsv.2.2

/-- The closed colour vocabulary of the specification. -/
def colorVocabulary : List String :=
  ["red", "orange", "yellow", "green", "cyan", "blue", "purple", "pink",
   "white", "gray", "black", "brown"]

/-- Whether a YOLO detection contributes one colour count in
`_extract_colors_from_boxes`: either the custom-model class branch fires or
the sampled `roi` is non-empty. -/
def yoloContributes (useCustom : Bool) (w h : ℕ) (d : YoloDet) : Bool :=
  (useCustom && classTruthy d) || roiNonempty w h d

/-- The sole mutation of the `unchanged` branch (main.py line 1284). -/
def markUnchanged (d : Detection) : Detection :=
  { d with correction_type := some "unchanged" }

/-- The detection list with its first `k` entries classified `unchanged`
(the state reached after the round-trip run has processed `k` boxes). -/
def markUnchangedUpTo : ℕ → List Detection → List Detection
  | _, [] => []
  | 0, l => l
  | k + 1, d :: l => markUnchanged d :: markUnchangedUpTo k l

/-! ## General helper lemmas -/

theorem breakdownSum_cons (k : String) (n : ℕ) (rest : List (String × ℕ)) :
    breakdownSum ((k, n) :: rest) = n + breakdownSum rest := by
  simp [breakdownSum]

theorem incColor_breakdownSum (l : List (String × ℕ)) (c : String) :
    breakdownSum (incColor l c) = breakdownSum l + 1 := by
  induction l with
  | nil => simp [incColor, breakdownSum]
  | cons p rest ih =>
    obtain ⟨k, n⟩ := p
    by_cases hk : k = c
    · simp only [incColor, if_pos hk, breakdownSum_cons]
      omega
    · simp only [incColor, if_neg hk, breakdownSum_cons, ih]
      omega

theorem find?_eq_some_of_first {α : Type} (p : α → Bool) (l : List α) :
    ∀ (k : ℕ) (hk : k < l.length),
      p (l.get ⟨k, hk⟩) = true →
      (∀ m (hm : m < l.length), m < k → p (l.get ⟨m, hm⟩) = false) →
      l.find? p = some (l.get ⟨k, hk⟩) := by
  induction l with
  | nil => intro k hk; simp at hk
  | cons a t ih =>
    intro k hk hp hless
    cases k with
    | zero =>
      simp only [List.get] at hp
      simp [List.find?_cons, hp]
    | succ k' =>
      have ha : p a = false := by
        have h0 := hless 0 (by simp) (Nat.succ_pos k')
        simpa using h0
      simp only [List.get] at hp ⊢
      simp only [List.find?_cons, ha]
      exact ih k' (by simpa using Nat.lt_of_succ_lt_succ hk) hp
        (fun m hm hmk => by
          have hstep := hless (m + 1) (by simpa using Nat.succ_lt_succ hm)
            (Nat.succ_lt_succ hmk)
          simpa using hstep)

theorem find?_some_first {α : Type} (p : α → Bool) (l : List α) :
    ∀ (a : α), l.find? p = some a →
      ∃ (k : ℕ) (hk : k < l.length), l.get ⟨k, hk⟩ = a ∧ p a = true ∧
        ∀ m (hm : m < l.length), m < k → p (l.get ⟨m, hm⟩) = false := by
  induction l with
  | nil => intro a ha; simp at ha
  | cons b t ih =>
    intro a ha
    by_cases hb : p b = true
    · rw [List.find?_cons_of_pos _ hb] at ha
      obtain rfl : b = a := by simpa using ha
      exact ⟨0, by simp, rfl, hb, fun m hm hmk => by omega⟩
    · have hb' : p b = false := by simpa using hb
      rw [List.find?_cons_of_neg _ (by simp [hb'])] at ha
      obtain ⟨k, hk, hget, hpa, hless⟩ := ih a ha
      refine ⟨k + 1, by simpa using Nat.succ_lt_succ hk, by simpa using hget, hpa, ?_⟩
      intro m hm hmk
      cases m with
      | zero => simpa using hb'
      | succ m' =>
        have hm' : m' < t.length := by simpa using Nat.lt_of_succ_lt_succ hm
        have := hless m' hm' (Nat.lt_of_succ_lt_succ hmk)
        simpa using this

/-! ## Reconciliation-engine lemma kit -/

theorem get?_set_same {α : Type} (l : List α) (i : ℕ) (a : α) (h : i < l.length) :
    (l.set i a).get? i = some a := by
  simp [List.get?_eq_getElem?, List.getElem?_set_self h]

theorem get?_set_other {α : Type} (l : List α) (i j : ℕ) (a : α) (h : i ≠ j) :
    (l.set i a).get? j = l.get? j := by
  simp [List.get?_eq_getElem?, List.getElem?_set_ne h]

theorem processCorrectedBox_some (uid ts eid : ℕ) (st : RunState) (cb : CorrectedBox)
    (i : ℕ) (a : Detection) (hf : find_matching_ai_box 5 cb st.dets st.candIdx = some i)
    (hg : st.dets.get? i = some a) :
    processCorrectedBox uid ts eid st cb =
      { st with
        dets := st.dets.set i (matchUpdate uid ts cb a)
        matchedIds := a.id :: st.matchedIds
        stats := bumpMatchedStats (movedB cb a) (resizedB cb a) st.stats } := by
  unfold processCorrectedBox
  simp only [hf, hg]

theorem processCorrectedBox_none (uid ts eid : ℕ) (st : RunState) (cb : CorrectedBox)
    (hf : find_matching_ai_box 5 cb st.dets st.candIdx = none) :
    processCorrectedBox uid ts eid st cb =
      { st with
        newDets := st.newDets ++ [newAddedDetection uid ts eid cb]
        stats := { st.stats with added := st.stats.added + 1 } } := by
  unfold processCorrectedBox
  simp only [hf]

theorem processCorrectedBox_stuck (uid ts eid : ℕ) (st : RunState) (cb : CorrectedBox)
    (i : ℕ) (hf : find_matching_ai_box 5 cb st.dets st.candIdx = some i)
    (hg : st.dets.get? i = none) :
    processCorrectedBox uid ts eid st cb = st := by
  unfold processCorrectedBox
  simp only [hf, hg]

theorem processCorrectedBox_candIdx (uid ts eid : ℕ) (st : RunState) (cb : CorrectedBox) :
    (processCorrectedBox uid ts eid st cb).candIdx = st.candIdx := by
  unfold processCorrectedBox
  repeat' split
  all_goals rfl

theorem processCorrectedBox_length (uid ts eid : ℕ) (st : RunState) (cb : CorrectedBox) :
    (processCorrectedBox uid ts eid st cb).dets.length = st.dets.length := by
  unfold processCorrectedBox
  repeat' split
  all_goals simp

theorem foldl_process_candIdx (uid ts eid : ℕ) (cbs : List CorrectedBox) :
    ∀ st : RunState,
      (cbs.foldl (processCorrectedBox uid ts eid) st).candIdx = st.candIdx := by
  induction cbs with
  | nil => intro st; rfl
  | cons cb rest ih =>
    intro st
    simp only [List.foldl_cons]
    rw [ih, processCorrectedBox_candIdx]

theorem foldl_process_length (uid ts eid : ℕ) (cbs : List CorrectedBox) :
    ∀ st : RunState,
      (cbs.foldl (processCorrectedBox uid ts eid) st).dets.length = st.dets.length := by
  induction cbs with
  | nil => intro st; rfl
  | cons cb rest ih =>
    intro st
    simp only [List.foldl_cons]
    rw [ih, processCorrectedBox_length]

theorem foldl_process_get_not_cand (uid ts eid : ℕ) (cbs : List CorrectedBox) :
    ∀ (st : RunState) (i : ℕ), i ∉ st.candIdx →
      (cbs.foldl (processCorrectedBox uid ts eid) st).dets.get? i = st.dets.get? i := by
  induction cbs with
  | nil => intro st i _; rfl
  | cons cb rest ih =>
    intro st i hi
    simp only [List.foldl_cons]
    have hcand : (processCorrectedBox uid ts eid st cb).candIdx = st.candIdx :=
      processCorrectedBox_candIdx uid ts eid st cb
    rw [ih (processCorrectedBox uid ts eid st cb) i (hcand ▸ hi)]
    rcases hf : find_matching_ai_box 5 cb st.dets st.candIdx with _ | j
    · rw [processCorrectedBox_none uid ts eid st cb hf]
    · have hj : j ∈ st.candIdx := List.mem_of_find?_eq_some hf
      have hij : i ≠ j := fun he => hi (he ▸ hj)
      rcases hg : st.dets.get? j with _ | a
      · rw [processCorrectedBox_stuck uid ts eid st cb j hf hg]
      · rw [processCorrectedBox_some uid ts eid st cb j a hf hg]
        exact get?_set_other _ _ _ _ (Ne.symm hij)

theorem markDeletedStep_skip (uid ts : ℕ) (s : RunState) (i : ℕ) (a : Detection)
    (hg : s.dets.get? i = some a) (hm : a.id ∈ s.matchedIds) :
    markDeletedStep uid ts s i = s := by
  unfold markDeletedStep
  simp only [hg]
  rw [if_pos hm]

theorem markDeletedStep_mark (uid ts : ℕ) (s : RunState) (i : ℕ) (a : Detection)
    (hg : s.dets.get? i = some a) (hm : a.id ∉ s.matchedIds) :
    markDeletedStep uid ts s i =
      { s with
        dets := s.dets.set i (markDeleted uid ts a)
        stats := { s.stats with deleted := s.stats.deleted + 1 } } := by
  unfold markDeletedStep
  simp only [hg]
  rw [if_neg hm]

theorem markDeletedStep_nothing (uid ts : ℕ) (s : RunState) (i : ℕ)
    (hg : s.dets.get? i = none) : markDeletedStep uid ts s i = s := by
  unfold markDeletedStep
  simp only [hg]

theorem markDeletedStep_candIdx (uid ts : ℕ) (s : RunState) (i : ℕ) :
    (markDeletedStep uid ts s i).candIdx = s.candIdx := by
  unfold markDeletedStep
  repeat' split
  all_goals rfl

theorem markDeletedStep_matchedIds (uid ts : ℕ) (s : RunState) (i : ℕ) :
    (markDeletedStep uid ts s i).matchedIds = s.matchedIds := by
  unfold markDeletedStep
  repeat' split
  all_goals rfl

theorem markDeletedStep_length (uid ts : ℕ) (s : RunState) (i : ℕ) :
    (markDeletedStep uid ts s i).dets.length = s.dets.length := by
  unfold markDeletedStep
  repeat' split
  all_goals simp

theorem markDeletedStep_get_ne (uid ts : ℕ) (s : RunState) (i j : ℕ) (hij : i ≠ j) :
    (markDeletedStep uid ts s j).dets.get? i = s.dets.get? i := by
  rcases hg : s.dets.get? j with _ | a
  · rw [markDeletedStep_nothing uid ts s j hg]
  · by_cases hm : a.id ∈ s.matchedIds
    · rw [markDeletedStep_skip uid ts s j a hg hm]
    · rw [markDeletedStep_mark uid ts s j a hg hm]
      exact get?_set_other _ _ _ _ (Ne.symm hij)

theorem foldl_mark_get_not_mem (uid ts : ℕ) (l : List ℕ) :
    ∀ (s : RunState) (i : ℕ), i ∉ l →
      (l.foldl (markDeletedStep uid ts) s).dets.get? i = s.dets.get? i := by
  induction l with
  | nil => intro s i _; rfl
  | cons j rest ih =>
    intro s i hi
    have hij : i ≠ j := fun he => hi (he ▸ List.mem_cons_self j rest)
    have hrest : i ∉ rest := fun hr => hi (List.mem_cons_of_mem j hr)
    simp only [List.foldl_cons]
    rw [ih (markDeletedStep uid ts s j) i hrest, markDeletedStep_get_ne uid ts s i j hij]

theorem foldl_mark_matchedIds (uid ts : ℕ) (l : List ℕ) :
    ∀ s : RunState, (l.foldl (markDeletedStep uid ts) s).matchedIds = s.matchedIds := by
  induction l with
  | nil => intro s; rfl
  | cons j rest ih =>
    intro s
    simp only [List.foldl_cons]
    rw [ih, markDeletedStep_matchedIds]

theorem foldl_mark_get_mem (uid ts : ℕ) (l : List ℕ) :
    ∀ (s : RunState) (i : ℕ) (a : Detection), l.Nodup → i ∈ l →
      s.dets.get? i = some a →
      (l.foldl (markDeletedStep uid ts) s).dets.get? i =
        some (if a.id ∈ s.matchedIds then a else markDeleted uid ts a) := by
  induction l with
  | nil => intro s i a _ hi; exact absurd hi (by simp)
  | cons j rest ih =>
    intro s i a hnd hi hg
    have hndr : rest.Nodup := (List.nodup_cons.mp hnd).2
    have hjr : j ∉ rest := (List.nodup_cons.mp hnd).1
    simp only [List.foldl_cons]
    by_cases hij : i = j
    · subst hij
      have hnotr : i ∉ rest := hjr
      rw [foldl_mark_get_not_mem uid ts rest _ i hnotr]
      by_cases hm : a.id ∈ s.matchedIds
      · rw [markDeletedStep_skip uid ts s i a hg hm, if_pos hm]
        exact hg
      · rw [markDeletedStep_mark uid ts s i a hg hm, if_neg hm]
        have hlt : i < s.dets.length := (List.get?_eq_some.mp hg).1
        exact get?_set_same _ _ _ hlt
    · have hir : i ∈ rest := by
        rcases List.mem_cons.mp hi with he | hr
        · exact absurd he hij
        · exact hr
      have hg' : (markDeletedStep uid ts s j).dets.get? i = some a := by
        rw [markDeletedStep_get_ne uid ts s i j hij]
        exact hg
      rw [ih (markDeletedStep uid ts s j) i a hndr hir hg']
      rw [markDeletedStep_matchedIds]

theorem foldl_mark_length (uid ts : ℕ) (l : List ℕ) :
    ∀ s : RunState, (l.foldl (markDeletedStep uid ts) s).dets.length = s.dets.length := by
  induction l with
  | nil => intro s; rfl
  | cons j rest ih =>
    intro s
    simp only [List.foldl_cons]
    rw [ih, markDeletedStep_length]

theorem foldl_mark_noop (uid ts : ℕ) (l : List ℕ) :
    ∀ s : RunState,
      (∀ i ∈ l, ∀ a : Detection, s.dets.get? i = some a → a.id ∈ s.matchedIds) →
      l.foldl (markDeletedStep uid ts) s = s := by
  induction l with
  | nil => intro s _; rfl
  | cons j rest ih =>
    intro s hall
    have hstep : markDeletedStep uid ts s j = s := by
      rcases hg : s.dets.get? j with _ | a
      · exact markDeletedStep_nothing uid ts s j hg
      · exact markDeletedStep_skip uid ts s j a hg (hall j (by simp) a hg)
    simp only [List.foldl_cons, hstep]
    exact ih s (fun i hi a hg => hall i (by simp [hi]) a hg)

theorem aiCandidateIdx_nodup (dets : List Detection) : (aiCandidateIdx dets).Nodup :=
  (List.nodup_range dets.length).filter _

theorem mem_aiCandidateIdx (dets : List Detection) (i : ℕ) :
    i ∈ aiCandidateIdx dets ↔
      ∃ a, dets.get? i = some a ∧ a.is_ai_detected = true ∧ a.is_deleted = false := by
  unfold aiCandidateIdx
  rw [List.mem_filter, List.mem_range]
  constructor
  · rintro ⟨hlt, hp⟩
    rcases hg : dets.get? i with _ | a
    · rw [hg] at hp; exact absurd hp (by simp)
    · rw [hg] at hp
      refine ⟨a, rfl, ?_, ?_⟩
      · exact (Bool.and_eq_true _ _ ▸ hp).1
      · have := (Bool.and_eq_true _ _ ▸ hp).2
        simpa using this
  · rintro ⟨a, hg, hai, hdel⟩
    have hlt : i < dets.length := (List.get?_eq_some.mp hg).1
    refine ⟨hlt, ?_⟩
    rw [hg]
    simp [hai, hdel]

/-! ## Round-trip helper lemmas -/

theorem markUnchangedUpTo_zero (l : List Detection) : markUnchangedUpTo 0 l = l := by
  cases l <;> rfl

theorem markUnchangedUpTo_length (l : List Detection) :
    ∀ k : ℕ, (markUnchangedUpTo k l).length = l.length := by
  induction l with
  | nil => intro k; cases k <;> rfl
  | cons d t ih =>
    intro k
    cases k with
    | zero => rfl
    | succ k' => simp [markUnchangedUpTo, ih k']

theorem markUnchangedUpTo_get?_ge (l : List Detection) :
    ∀ (k i : ℕ), k ≤ i → (markUnchangedUpTo k l).get? i = l.get? i := by
  induction l with
  | nil => intro k i _; cases k <;> rfl
  | cons d t ih =>
    intro k i hki
    cases k with
    | zero => rw [markUnchangedUpTo_zero]
    | succ k' =>
      cases i with
      | zero => omega
      | succ i' =>
        show (markUnchanged d :: markUnchangedUpTo k' t).get? (i' + 1) = (d :: t).get? (i' + 1)
        simp only [List.get?_cons_succ]
        exact ih k' i' (Nat.le_of_succ_le_succ hki)

theorem markUnchangedUpTo_get?_lt (l : List Detection) :
    ∀ (k i : ℕ), i < k → (markUnchangedUpTo k l).get? i = (l.get? i).map markUnchanged := by
  induction l with
  | nil => intro k i _; cases k <;> rfl
  | cons d t ih =>
    intro k i hik
    cases k with
    | zero => omega
    | succ k' =>
      cases i with
      | zero => rfl
      | succ i' =>
        show (markUnchanged d :: markUnchangedUpTo k' t).get? (i' + 1) =
          ((d :: t).get? (i' + 1)).map markUnchanged
        simp only [List.get?_cons_succ]
        exact ih k' i' (Nat.lt_of_succ_lt_succ hik)

theorem markUnchangedUpTo_set (l : List Detection) :
    ∀ (k : ℕ) (a : Detection), l.get? k = some a →
      (markUnchangedUpTo k l).set k (markUnchanged a) = markUnchangedUpTo (k + 1) l := by
  induction l with
  | nil => intro k a hg; simp at hg
  | cons d t ih =>
    intro k a hg
    cases k with
    | zero =>
      obtain rfl : d = a := by simpa using hg
      show ((d :: t).set 0 (markUnchanged d)) = markUnchanged d :: markUnchangedUpTo 0 t
      rw [markUnchangedUpTo_zero]
      rfl
    | succ k' =>
      have hg' : t.get? k' = some a := by simpa using hg
      show (markUnchanged d :: markUnchangedUpTo k' t).set (k' + 1) (markUnchanged a) =
        markUnchanged d :: markUnchangedUpTo (k' + 1) t
      rw [List.set_cons_succ, ih k' a hg']

theorem markUnchangedUpTo_map_flags (l : List Detection) :
    ∀ k : ℕ,
      (markUnchangedUpTo k l).map Detection.is_deleted = l.map Detection.is_deleted ∧
      (markUnchangedUpTo k l).map Detection.is_corrected = l.map Detection.is_corrected := by
  induction l with
  | nil => intro k; cases k <;> exact ⟨rfl, rfl⟩
  | cons d t ih =>
    intro k
    cases k with
    | zero => rw [markUnchangedUpTo_zero]; exact ⟨rfl, rfl⟩
    | succ k' =>
      show ((markUnchanged d :: markUnchangedUpTo k' t).map _ = _ ∧
        (markUnchanged d :: markUnchangedUpTo k' t).map _ = _)
      simp only [List.map_cons]
      exact ⟨by rw [(ih k').1]; rfl, by rw [(ih k').2]; rfl⟩

theorem aiCandidateIdx_of_all (dets : List Detection)
    (hall : ∀ d ∈ dets, d.is_ai_detected = true ∧ d.is_deleted = false) :
    aiCandidateIdx dets = List.range dets.length := by
  unfold aiCandidateIdx
  apply List.filter_eq_self.mpr
  intro i hi
  have hlt : i < dets.length := List.mem_range.mp hi
  rcases hg : dets.get? i with _ | a
  · rw [List.get?_eq_none] at hg
    omega
  · have hmem : a ∈ dets := List.get?_mem hg
    obtain ⟨hai, hdel⟩ := hall a hmem
    simp [hg, hai, hdel]

theorem withinTolerance_markUnchanged (t : ℚ) (d : Detection) (cb : CorrectedBox) :
    withinTolerance t (markUnchanged d) cb = withinTolerance t d cb := rfl

theorem withinTolerance_self (d : Detection) :
    withinTolerance 5 d (toCorrectedBox d) = true := by
  norm_num [withinTolerance, toCorrectedBox]

theorem movedB_self (d : Detection) : movedB (toCorrectedBox d) d = false := by
  norm_num [movedB, toCorrectedBox]

theorem resizedB_self (d : Detection) : resizedB (toCorrectedBox d) d = false := by
  norm_num [resizedB, toCorrectedBox]

theorem matchUpdate_self (uid ts : ℕ) (d : Detection) :
    matchUpdate uid ts (toCorrectedBox d) d = markUnchanged d := by
  unfold matchUpdate
  rw [movedB_self, resizedB_self]
  rfl

/-! ## C1: first-fit matching without exclusion -/

/-- C1 (amended): for each corrected box, `save_corrections` finds a matching
AI detection by first-fit over the query result in order, and only when all
four per-axis absolute differences in x, y, width, height are strictly below
5 percentage points.  Contrary to the original claim, an AI detection matched
by an earlier corrected box is not excluded from later matching: the
candidate list is unchanged by processing and the matching function never
consults the matched-ids set, so the same AI detection can be matched by
several corrected boxes in one run (see the counterexample). -/
theorem c1_first_fit_matching_without_exclusion (uid ts eid : ℕ) (st : RunState)
    (cb : CorrectedBox) (i : ℕ)
    (hf : find_matching_ai_box 5 cb st.dets st.candIdx = some i) :
    (∃ (k : ℕ) (hk : k < st.candIdx.length),
      st.candIdx.get ⟨k, hk⟩ = i ∧
      (∃ a, st.dets.get? i = some a ∧
        |a.x - cb.x| < 5 ∧ |a.y - cb.y| < 5 ∧
        |a.width - cb.width| < 5 ∧ |a.height - cb.height| < 5) ∧
      ∀ (m : ℕ) (hm : m < st.candIdx.length), m < k →
        matchesBox 5 cb st.dets (st.candIdx.get ⟨m, hm⟩) = false) ∧
    (processCorrectedBox uid ts eid st cb).candIdx = st.candIdx := by
  constructor
  · obtain ⟨k, hk, hget, hp, hless⟩ := find?_some_first _ _ i hf
    refine ⟨k, hk, hget, ?_, hless⟩
    unfold matchesBox at hp
    rcases hg : st.dets.get? i with _ | a
    · rw [hg] at hp
      exact absurd hp (by simp)
    · rw [hg] at hp
      refine ⟨a, rfl, ?_⟩
      unfold withinTolerance at hp
      simp only [Bool.and_eq_true, decide_eq_true_eq] at hp
      exact ⟨hp.1.1.1, hp.1.1.2, hp.1.2, hp.2⟩
  · exact processCorrectedBox_candIdx uid ts eid st cb

theorem c1_first_fit_matching_without_exclusion_witness :
    find_matching_ai_box 5 (CorrectedBox.mk 12 10 5 5 "thread_roll" "pink")
        (initState [baseDet 1 10 10 5 5]).dets
        (initState [baseDet 1 10 10 5 5]).candIdx = some 0 ∧
    ((∃ (k : ℕ) (hk : k < (initState [baseDet 1 10 10 5 5]).candIdx.length),
      (initState [baseDet 1 10 10 5 5]).candIdx.get ⟨k, hk⟩ = 0 ∧
      (∃ a, (initState [baseDet 1 10 10 5 5]).dets.get? 0 = some a ∧
        |a.x - (12 : ℚ)| < 5 ∧ |a.y - (10 : ℚ)| < 5 ∧
        |a.width - (5 : ℚ)| < 5 ∧ |a.height - (5 : ℚ)| < 5) ∧
      ∀ (m : ℕ) (hm : m < (initState [baseDet 1 10 10 5 5]).candIdx.length), m < k →
        matchesBox 5 (CorrectedBox.mk 12 10 5 5 "thread_roll" "pink")
          (initState [baseDet 1 10 10 5 5]).dets
          ((initState [baseDet 1 10 10 5 5]).candIdx.get ⟨m, hm⟩) = false) ∧
    (processCorrectedBox 7 100 1 (initState [baseDet 1 10 10 5 5])
        (CorrectedBox.mk 12 10 5 5 "thread_roll" "pink")).candIdx =
      (initState [baseDet 1 10 10 5 5]).candIdx) := by
  have hf : find_matching_ai_box 5 (CorrectedBox.mk 12 10 5 5 "thread_roll" "pink")
      (initState [baseDet 1 10 10 5 5]).dets
      (initState [baseDet 1 10 10 5 5]).candIdx = some 0 := by
    norm_num [find_matching_ai_box, matchesBox, withinTolerance, initState,
      aiCandidateIdx, baseDet, List.find?, List.range_succ]
  exact ⟨hf, c1_first_fit_matching_without_exclusion 7 100 1
    (initState [baseDet 1 10 10 5 5]) (CorrectedBox.mk 12 10 5 5 "thread_roll" "pink") 0 hf⟩

/-- C1 counterexample: with a single AI detection and two identical corrected
boxes both within tolerance of it, the source matches the same AI detection
twice (`unchanged` is counted twice and nothing is counted `added`), so the
"matched at most once, excluded afterwards" part of the claim is false: under
exclusion the second box could not match and would be counted `added`. -/
theorem c1_counterexample :
    (save_corrections 7 100 1 [baseDet 1 10 10 5 5]
        [toCorrectedBox (baseDet 1 10 10 5 5),
         toCorrectedBox (baseDet 1 10 10 5 5)]).stats =
      CorrectionStats.mk 0 0 0 0 2 := by
  norm_num [save_corrections, reconcileState, initState, aiCandidateIdx,
    processCorrectedBox, find_matching_ai_box, matchesBox, withinTolerance,
    movedB, resizedB, matchUpdate, applyMoveResize, bumpMatchedStats,
    markDeletedPass, markDeletedStep, markDeleted, toCorrectedBox, baseDet,
    classifyCorrection, List.find?, List.range_succ]

/-! ## C5: classification of a matched corrected box -/

/-- C5: for a corrected box matched to an AI detection, `moved` holds exactly
when x or y differs by strictly more than 1.0 percentage points and `resized`
exactly when width or height does; a moved/resized detection gets
`correction_type` moved, resized, or moved_resized accordingly, its pre-change
coordinates snapshotted into the original_* fields and its coordinates
overwritten with the corrected values; otherwise it is classified unchanged
and its coordinates are untouched. -/
theorem c5_match_classification (uid ts eid : ℕ) (st : RunState) (cb : CorrectedBox)
    (i : ℕ) (a : Detection)
    (hf : find_matching_ai_box 5 cb st.dets st.candIdx = some i)
    (hg : st.dets.get? i = some a) :
    (movedB cb a = true ↔ (1 < |a.x - cb.x| ∨ 1 < |a.y - cb.y|)) ∧
    (resizedB cb a = true ↔ (1 < |a.width - cb.width| ∨ 1 < |a.height - cb.height|)) ∧
    ((movedB cb a || resizedB cb a) = true →
      (processCorrectedBox uid ts eid st cb).dets.get? i =
        some { a with
          original_x := some a.x, original_y := some a.y,
          original_width := some a.width, original_height := some a.height,
          x := cb.x, y := cb.y, width := cb.width, height := cb.height,
          is_corrected := true, corrected_by_user_id := some uid,
          corrected_at := some ts,
          correction_type := some (classifyCorrection (movedB cb a) (resizedB cb a)) }) ∧
    ((movedB cb a || resizedB cb a) = false →
      (processCorrectedBox uid ts eid st cb).dets.get? i =
        some { a with correction_type := some "unchanged" }) ∧
    (movedB cb a = true → resizedB cb a = true →
      classifyCorrection (movedB cb a) (resizedB cb a) = "moved_resized") ∧
    (movedB cb a = true → resizedB cb a = false →
      classifyCorrection (movedB cb a) (resizedB cb a) = "moved") ∧
    (movedB cb a = false → resizedB cb a = true →
      classifyCorrection (movedB cb a) (resizedB cb a) = "resized") := by
  have hlt : i < st.dets.length := (List.get?_eq_some.mp hg).1
  have hstep := processCorrectedBox_some uid ts eid st cb i a hf hg
  refine ⟨?_, ?_, ?_, ?_, ?_, ?_, ?_⟩
  · simp [movedB]
  · simp [resizedB]
  · intro hmr
    rw [hstep]
    have hupd : matchUpdate uid ts cb a =
        applyMoveResize uid ts cb (movedB cb a) (resizedB cb a) a := by
      unfold matchUpdate
      rw [if_pos hmr]
    simp only
    rw [get?_set_same _ _ _ hlt, hupd]
    rfl
  · intro hmr
    rw [hstep]
    have hupd : matchUpdate uid ts cb a = { a with correction_type := some "unchanged" } := by
      unfold matchUpdate
      rw [if_neg (by simp [hmr])]
    simp only
    rw [get?_set_same _ _ _ hlt, hupd]
  · intro h1 h2; simp [classifyCorrection, h1, h2]
  · intro h1 h2; simp [classifyCorrection, h1, h2]
  · intro h1 h2; simp [classifyCorrection, h1, h2]

theorem c5_match_classification_witness :
    (processCorrectedBox 7 100 1 (initState [baseDet 1 10 10 5 5])
        (CorrectedBox.mk 12 10 5 5 "thread_roll" "pink")).dets.get? 0 =
      some (Detection.mk 1 1 12 10 5 5 "thread_roll" "pink" none true true false
        (some 10) (some 10) (some 5) (some 5) (some "moved") (some 7) (some 100)) := by
  have hf : find_matching_ai_box 5 (CorrectedBox.mk 12 10 5 5 "thread_roll" "pink")
      (initState [baseDet 1 10 10 5 5]).dets
      (initState [baseDet 1 10 10 5 5]).candIdx = some 0 := by
    norm_num [find_matching_ai_box, matchesBox, withinTolerance, initState,
      aiCandidateIdx, baseDet, List.find?, List.range_succ]
  have hg : (initState [baseDet 1 10 10 5 5]).dets.get? 0 =
      some (baseDet 1 10 10 5 5) := rfl
  have hmr : (movedB (CorrectedBox.mk 12 10 5 5 "thread_roll" "pink")
      (baseDet 1 10 10 5 5) ||
      resizedB (CorrectedBox.mk 12 10 5 5 "thread_roll" "pink")
        (baseDet 1 10 10 5 5)) = true := by
    norm_num [movedB, resizedB, baseDet]
  have h3 := (c5_match_classification 7 100 1 (initState [baseDet 1 10 10 5 5])
    (CorrectedBox.mk 12 10 5 5 "thread_roll" "pink") 0 (baseDet 1 10 10 5 5) hf hg).2.2.1 hmr
  rw [h3]
  norm_num [baseDet, classifyCorrection, movedB, resizedB]

/-! ## C6: attribution stamping -/

/-- C6 (amended): every record reconcile touches or creates with a
non-`unchanged` classification — moved, resized, moved_resized, added,
deleted — receives the acting user's id in `correctedByUserId` and the run's
timestamp in `correctedAt`.  Contrary to the original claim, a matched record
classified `unchanged` is not stamped: only its `correction_type` field is
set and both attribution fields keep their previous values (see the
counterexample). -/
theorem c6_attribution_stamps (uid ts eid : ℕ) (cb : CorrectedBox) (a : Detection)
    (moved resized : Bool) :
    ((applyMoveResize uid ts cb moved resized a).corrected_by_user_id = some uid ∧
      (applyMoveResize uid ts cb moved resized a).corrected_at = some ts) ∧
    ((newAddedDetection uid ts eid cb).corrected_by_user_id = some uid ∧
      (newAddedDetection uid ts eid cb).corrected_at = some ts) ∧
    ((markDeleted uid ts a).corrected_by_user_id = some uid ∧
      (markDeleted uid ts a).corrected_at = some ts) ∧
    ((movedB cb a || resizedB cb a) = false →
      matchUpdate uid ts cb a = { a with correction_type := some "unchanged" } ∧
      (matchUpdate uid ts cb a).corrected_by_user_id = a.corrected_by_user_id ∧
      (matchUpdate uid ts cb a).corrected_at = a.corrected_at) := by
  refine ⟨⟨rfl, rfl⟩, ⟨rfl, rfl⟩, ⟨rfl, rfl⟩, ?_⟩
  intro hmr
  have hupd : matchUpdate uid ts cb a = { a with correction_type := some "unchanged" } := by
    unfold matchUpdate
    rw [if_neg (by simp [hmr])]
  exact ⟨hupd, by rw [hupd], by rw [hupd]⟩

theorem c6_attribution_stamps_witness :
    matchUpdate 7 100 (toCorrectedBox (baseDet 1 10 10 5 5)) (baseDet 1 10 10 5 5) =
      { baseDet 1 10 10 5 5 with correction_type := some "unchanged" } ∧
    (matchUpdate 7 100 (toCorrectedBox (baseDet 1 10 10 5 5))
        (baseDet 1 10 10 5 5)).corrected_by_user_id = none ∧
    (markDeleted 7 100 (baseDet 1 10 10 5 5)).corrected_by_user_id = some 7 := by
  have hmr : (movedB (toCorrectedBox (baseDet 1 10 10 5 5)) (baseDet 1 10 10 5 5) ||
      resizedB (toCorrectedBox (baseDet 1 10 10 5 5)) (baseDet 1 10 10 5 5)) = false := by
    norm_num [movedB, resizedB, toCorrectedBox, baseDet]
  have h := (c6_attribution_stamps 7 100 1 (toCorrectedBox (baseDet 1 10 10 5 5))
    (baseDet 1 10 10 5 5) false false).2.2.2 hmr
  refine ⟨h.1, ?_, (c6_attribution_stamps 7 100 1 (toCorrectedBox (baseDet 1 10 10 5 5))
    (baseDet 1 10 10 5 5) false false).2.2.1.1⟩
  rw [h.2.1]
  rfl

/-- C6 counterexample: a reconciliation run whose only corrected box exactly
matches the single AI detection classifies it `unchanged` but stamps neither
`correctedByUserId` nor `correctedAt`, so the claim that every touched record
receives them is false. -/
theorem c6_counterexample :
    (save_corrections 7 100 1 [baseDet 1 10 10 5 5]
        [toCorrectedBox (baseDet 1 10 10 5 5)]).dets.get? 0 =
      some (Detection.mk 1 1 10 10 5 5 "thread_roll" "pink" none true false false
        none none none none (some "unchanged") none none) ∧
    (Detection.mk 1 1 10 10 5 5 "thread_roll" "pink" none true false false
        none none none none (some "unchanged") none none).corrected_by_user_id ≠ some 7 ∧
    (Detection.mk 1 1 10 10 5 5 "thread_roll" "pink" none true false false
        none none none none (some "unchanged") none none).corrected_at ≠ some 100 := by
  refine ⟨?_, by simp, by simp⟩
  norm_num [save_corrections, reconcileState, initState, aiCandidateIdx,
    processCorrectedBox, find_matching_ai_box, matchesBox, withinTolerance,
    movedB, resizedB, matchUpdate, applyMoveResize, bumpMatchedStats,
    markDeletedPass, markDeletedStep, markDeleted, toCorrectedBox, baseDet,
    classifyCorrection, List.find?, List.range_succ]

/-! ## C4: unmatched AI detections are flagged deleted, never removed -/

/-- C4: after reconcile processes all corrected boxes, every AI detection from
the opening query whose id was never added to the matched set is overwritten
with `isDeleted = true` and `correctionType = "deleted"` — the row is kept,
the detection list length never changes — and the owning entry's final count
is set to `len(correctedBoxes)`; with an empty corrected list every queried
AI detection is marked deleted and the final count is 0. -/
theorem c4_unmatched_marked_deleted (uid ts eid : ℕ) (dets : List Detection)
    (cbs : List CorrectedBox) :
    (save_corrections uid ts eid dets cbs).dets.length = dets.length ∧
    (save_corrections uid ts eid dets cbs).final_count = cbs.length ∧
    (∀ a : Detection, (markDeleted uid ts a).is_deleted = true ∧
      (markDeleted uid ts a).correction_type = some "deleted") ∧
    (∀ (i : ℕ) (a : Detection),
      i ∈ (cbs.foldl (processCorrectedBox uid ts eid) (initState dets)).candIdx →
      (cbs.foldl (processCorrectedBox uid ts eid) (initState dets)).dets.get? i = some a →
      a.id ∉ (cbs.foldl (processCorrectedBox uid ts eid) (initState dets)).matchedIds →
      (save_corrections uid ts eid dets cbs).dets.get? i =
        some (markDeleted uid ts a)) ∧
    (cbs = [] → ∀ (i : ℕ) (a : Detection), i ∈ aiCandidateIdx dets →
      dets.get? i = some a →
      (save_corrections uid ts eid dets cbs).dets.get? i =
        some (markDeleted uid ts a)) := by
  have hcand : (cbs.foldl (processCorrectedBox uid ts eid) (initState dets)).candIdx =
      aiCandidateIdx dets := by
    rw [foldl_process_candIdx]; rfl
  have hdel : ∀ (i : ℕ) (a : Detection),
      i ∈ (cbs.foldl (processCorrectedBox uid ts eid) (initState dets)).candIdx →
      (cbs.foldl (processCorrectedBox uid ts eid) (initState dets)).dets.get? i = some a →
      a.id ∉ (cbs.foldl (processCorrectedBox uid ts eid) (initState dets)).matchedIds →
      (save_corrections uid ts eid dets cbs).dets.get? i =
        some (markDeleted uid ts a) := by
    intro i a hi hg hm
    show (markDeletedPass uid ts
      (cbs.foldl (processCorrectedBox uid ts eid) (initState dets))).dets.get? i =
        some (markDeleted uid ts a)
    unfold markDeletedPass
    rw [foldl_mark_get_mem uid ts _ _ i a (hcand ▸ aiCandidateIdx_nodup dets) hi hg]
    rw [if_neg hm]
  refine ⟨?_, rfl, fun a => ⟨rfl, rfl⟩, hdel, ?_⟩
  · show (markDeletedPass uid ts _).dets.length = dets.length
    unfold markDeletedPass
    rw [foldl_mark_length, foldl_process_length]
    rfl
  · rintro rfl i a hi hg
    exact hdel i a (hcand ▸ hi) hg (by simp [initState])

theorem c4_unmatched_marked_deleted_witness :
    (save_corrections 7 100 1 [baseDet 1 10 10 5 5]
        ([] : List CorrectedBox)).dets.get? 0 =
      some (markDeleted 7 100 (baseDet 1 10 10 5 5)) ∧
    (save_corrections 7 100 1 [baseDet 1 10 10 5 5] ([] : List CorrectedBox)).final_count = 0 ∧
    (markDeleted 7 100 (baseDet 1 10 10 5 5)).is_deleted = true :=
  ⟨(c4_unmatched_marked_deleted 7 100 1 [baseDet 1 10 10 5 5] []).2.2.2.2 rfl 0
      (baseDet 1 10 10 5 5) (by decide) rfl,
   (c4_unmatched_marked_deleted 7 100 1 [baseDet 1 10 10 5 5] []).2.1,
   ((c4_unmatched_marked_deleted 7 100 1 [baseDet 1 10 10 5 5] []).2.2.1
      (baseDet 1 10 10 5 5)).1⟩

/-! ## C10: the deleted flag is monotone -/

/-- C10: reconcile reads only detections with `isAiDetected = true` and
`isDeleted = false` as match candidates; a detection already flagged deleted
at the start of a run is returned completely untouched, and no operation of
the run ever resets `isDeleted` to false, so a deleted detection stays
deleted (and stays excluded and untouched) in every subsequent run. -/
theorem c10_deleted_flag_monotone (uid ts eid : ℕ) (dets : List Detection)
    (cbs : List CorrectedBox) :
    (∀ i : ℕ, i ∈ aiCandidateIdx dets ↔
      ∃ a, dets.get? i = some a ∧ a.is_ai_detected = true ∧ a.is_deleted = false) ∧
    (∀ (i : ℕ) (a : Detection), dets.get? i = some a → a.is_deleted = true →
      (save_corrections uid ts eid dets cbs).dets.get? i = some a) ∧
    (∀ (i : ℕ) (a b : Detection), dets.get? i = some a →
      (save_corrections uid ts eid dets cbs).dets.get? i = some b →
      b.is_deleted = false → a.is_deleted = false) := by
  have huntouched : ∀ (i : ℕ) (a : Detection), dets.get? i = some a →
      a.is_deleted = true →
      (save_corrections uid ts eid dets cbs).dets.get? i = some a := by
    intro i a hg hdel
    have hnot : i ∉ aiCandidateIdx dets := by
      intro hmem
      obtain ⟨a', hg', _, hdel'⟩ := (mem_aiCandidateIdx dets i).mp hmem
      rw [hg] at hg'
      obtain rfl : a = a' := by simpa using hg'
      rw [hdel] at hdel'
      exact absurd hdel' (by simp)
    show (markDeletedPass uid ts
      (cbs.foldl (processCorrectedBox uid ts eid) (initState dets))).dets.get? i = some a
    unfold markDeletedPass
    have hcand : (cbs.foldl (processCorrectedBox uid ts eid) (initState dets)).candIdx =
        aiCandidateIdx dets := by rw [foldl_process_candIdx]; rfl
    rw [foldl_mark_get_not_mem uid ts _ _ i (hcand ▸ hnot)]
    rw [foldl_process_get_not_cand uid ts eid cbs (initState dets) i hnot]
    exact hg
  refine ⟨mem_aiCandidateIdx dets, huntouched, ?_⟩
  intro i a b hg hsave hb
  by_cases hdel : a.is_deleted = true
  · have := huntouched i a hg hdel
    rw [this] at hsave
    obtain rfl : a = b := by simpa using hsave
    rw [hdel] at hb
    exact absurd hb (by simp)
  · simpa using hdel

theorem c10_deleted_flag_monotone_witness :
    (save_corrections 7 100 1
        [Detection.mk 2 1 20 20 5 5 "thread_roll" "pink" none true false true
          none none none none (some "deleted") (some 3) (some 50)]
        [toCorrectedBox (baseDet 1 10 10 5 5)]).dets.get? 0 =
      some (Detection.mk 2 1 20 20 5 5 "thread_roll" "pink" none true false true
        none none none none (some "deleted") (some 3) (some 50)) :=
  (c10_deleted_flag_monotone 7 100 1
    [Detection.mk 2 1 20 20 5 5 "thread_roll" "pink" none true false true
      none none none none (some "deleted") (some 3) (some 50)]
    [toCorrectedBox (baseDet 1 10 10 5 5)]).2.1 0
    (Detection.mk 2 1 20 20 5 5 "thread_roll" "pink" none true false true
      none none none none (some "deleted") (some 3) (some 50)) rfl rfl

/-! ## C3: the round-trip property -/

theorem c3_fold_invariant (uid ts eid : ℕ) (dets : List Detection)
    (hall : ∀ d ∈ dets, d.is_ai_detected = true ∧ d.is_deleted = false)
    (hsep : ∀ (i k : ℕ) (hi : i < dets.length) (hk : k < dets.length), i ≠ k →
      withinTolerance 5 (dets.get ⟨i, hi⟩) (toCorrectedBox (dets.get ⟨k, hk⟩)) = false) :
    ∀ k : ℕ, k ≤ dets.length →
      ((dets.take k).map toCorrectedBox).foldl (processCorrectedBox uid ts eid)
          (initState dets) =
        RunState.mk (markUnchangedUpTo k dets) (List.range dets.length)
          (((dets.take k).map Detection.id).reverse)
          (CorrectionStats.mk 0 0 0 0 k) [] := by
  intro k
  induction k with
  | zero =>
    intro _
    simp only [List.take_zero, List.map_nil, List.foldl_nil, List.reverse_nil]
    unfold initState
    rw [aiCandidateIdx_of_all dets hall, markUnchangedUpTo_zero]
  | succ k ih =>
    intro hk1
    have hk : k < dets.length := hk1
    have hkle : k ≤ dets.length := le_of_lt hk
    have hget : dets.get? k = some (dets.get ⟨k, hk⟩) := List.get?_eq_get hk
    have hgetE : dets[k]? = some (dets.get ⟨k, hk⟩) := by
      rw [← List.get?_eq_getElem?]
      exact hget
    rw [List.take_succ, hgetE]
    simp only [Option.toList_some, List.map_append, List.foldl_append, List.map_cons,
      List.map_nil, List.foldl_cons, List.foldl_nil]
    rw [ih hkle]
    have hk' : k < (List.range dets.length).length := by simpa using hk
    have hrange : (List.range dets.length).get ⟨k, hk'⟩ = k := by
      simp [List.get_eq_getElem]
    have hgk : (markUnchangedUpTo k dets).get? k = some (dets.get ⟨k, hk⟩) := by
      rw [markUnchangedUpTo_get?_ge dets k k (le_refl k)]
      exact hget
    have hfind : find_matching_ai_box 5 (toCorrectedBox (dets.get ⟨k, hk⟩))
        (markUnchangedUpTo k dets) (List.range dets.length) = some k := by
      unfold find_matching_ai_box
      have hp : matchesBox 5 (toCorrectedBox (dets.get ⟨k, hk⟩)) (markUnchangedUpTo k dets)
          ((List.range dets.length).get ⟨k, hk'⟩) = true := by
        rw [hrange]
        unfold matchesBox
        rw [hgk]
        exact withinTolerance_self _
      have hless : ∀ (m : ℕ) (hm : m < (List.range dets.length).length), m < k →
          matchesBox 5 (toCorrectedBox (dets.get ⟨k, hk⟩)) (markUnchangedUpTo k dets)
            ((List.range dets.length).get ⟨m, hm⟩) = false := by
        intro m hm hmk
        have hmN : m < dets.length := by simpa using hm
        have hrangem : (List.range dets.length).get ⟨m, hm⟩ = m := by
          simp [List.get_eq_getElem]
        rw [hrangem]
        unfold matchesBox
        rw [markUnchangedUpTo_get?_lt dets k m hmk, List.get?_eq_get hmN]
        simp only [Option.map_some']
        rw [withinTolerance_markUnchanged]
        exact hsep m k hmN hk (Nat.ne_of_lt hmk)
      have := find?_eq_some_of_first
        (matchesBox 5 (toCorrectedBox (dets.get ⟨k, hk⟩)) (markUnchangedUpTo k dets))
        (List.range dets.length) k hk' hp hless
      rw [hrange] at this
      exact this
    rw [processCorrectedBox_some uid ts eid
      (RunState.mk (markUnchangedUpTo k dets) (List.range dets.length)
        (((dets.take k).map Detection.id).reverse) (CorrectionStats.mk 0 0 0 0 k) [])
      (toCorrectedBox (dets.get ⟨k, hk⟩)) k (dets.get ⟨k, hk⟩) hfind hgk]
    simp only [matchUpdate_self, movedB_self, resizedB_self]
    rw [markUnchangedUpTo_set dets k (dets.get ⟨k, hk⟩) hget]
    have hstats : bumpMatchedStats false false (CorrectionStats.mk 0 0 0 0 k) =
        CorrectionStats.mk 0 0 0 0 (k + 1) := rfl
    rw [hstats]
    congr 1
    simp [List.reverse_append]

/-- C3 (amended): reconciling a corrected-box set identical to the current AI
boxes yields `CorrectionStats = {unchanged: N, others: 0}`, creates no new
detections, only sets each detection's `correction_type` to `"unchanged"` and
flips no `isDeleted`/`isCorrected` flag — provided the AI detections are
pairwise out of tolerance of each other (some axis differs by at least 5
percentage points).  Without that proviso the claim is false: first-fit
matching with no exclusion can match two identical corrected boxes to the
same AI detection and then classify a box as moved and delete a detection
(see the counterexample). -/
theorem c3_round_trip_unchanged (uid ts eid : ℕ) (dets : List Detection)
    (hall : ∀ d ∈ dets, d.is_ai_detected = true ∧ d.is_deleted = false)
    (hsep : ∀ (i k : ℕ) (hi : i < dets.length) (hk : k < dets.length), i ≠ k →
      withinTolerance 5 (dets.get ⟨i, hi⟩) (toCorrectedBox (dets.get ⟨k, hk⟩)) = false) :
    (save_corrections uid ts eid dets (dets.map toCorrectedBox)).stats =
      CorrectionStats.mk 0 0 0 0 dets.length ∧
    (save_corrections uid ts eid dets (dets.map toCorrectedBox)).newDets = [] ∧
    (save_corrections uid ts eid dets (dets.map toCorrectedBox)).dets =
      markUnchangedUpTo dets.length dets ∧
    (save_corrections uid ts eid dets (dets.map toCorrectedBox)).dets.map
        Detection.is_deleted = dets.map Detection.is_deleted ∧
    (save_corrections uid ts eid dets (dets.map toCorrectedBox)).dets.map
        Detection.is_corrected = dets.map Detection.is_corrected := by
  have hfold := c3_fold_invariant uid ts eid dets hall hsep dets.length (le_refl _)
  rw [List.take_length] at hfold
  have hpass : markDeletedPass uid ts
      (RunState.mk (markUnchangedUpTo dets.length dets) (List.range dets.length)
        ((dets.map Detection.id).reverse) (CorrectionStats.mk 0 0 0 0 dets.length) []) =
      RunState.mk (markUnchangedUpTo dets.length dets) (List.range dets.length)
        ((dets.map Detection.id).reverse) (CorrectionStats.mk 0 0 0 0 dets.length) [] := by
    unfold markDeletedPass
    apply foldl_mark_noop
    intro i hi a hg
    have hiN : i < dets.length := by simpa using hi
    have hga : (markUnchangedUpTo dets.length dets).get? i =
        some (markUnchanged (dets.get ⟨i, hiN⟩)) := by
      rw [markUnchangedUpTo_get?_lt dets dets.length i hiN, List.get?_eq_get hiN]
      simp
    rw [hga] at hg
    obtain rfl : markUnchanged (dets.get ⟨i, hiN⟩) = a := by simpa using hg
    show (markUnchanged (dets.get ⟨i, hiN⟩)).id ∈ (dets.map Detection.id).reverse
    rw [List.mem_reverse]
    exact List.mem_map.mpr ⟨dets.get ⟨i, hiN⟩, List.get_mem dets _ _, rfl⟩
  have hsave : save_corrections uid ts eid dets (dets.map toCorrectedBox) =
      SaveResult.mk (markUnchangedUpTo dets.length dets) []
        (CorrectionStats.mk 0 0 0 0 dets.length) (dets.map toCorrectedBox).length true := by
    unfold save_corrections reconcileState
    rw [hfold, hpass]
  rw [hsave]
  exact ⟨rfl, rfl, rfl, (markUnchangedUpTo_map_flags dets dets.length).1,
    (markUnchangedUpTo_map_flags dets dets.length).2⟩

theorem c3_round_trip_unchanged_witness :
    (save_corrections 7 100 1 [baseDet 1 10 10 5 5, baseDet 2 40 10 5 5]
        ([baseDet 1 10 10 5 5, baseDet 2 40 10 5 5].map toCorrectedBox)).stats =
      CorrectionStats.mk 0 0 0 0 2 ∧
    (save_corrections 7 100 1 [baseDet 1 10 10 5 5, baseDet 2 40 10 5 5]
        ([baseDet 1 10 10 5 5, baseDet 2 40 10 5 5].map toCorrectedBox)).dets.map
        Detection.is_deleted =
      [baseDet 1 10 10 5 5, baseDet 2 40 10 5 5].map Detection.is_deleted := by
  have hall : ∀ d ∈ [baseDet 1 10 10 5 5, baseDet 2 40 10 5 5],
      d.is_ai_detected = true ∧ d.is_deleted = false := by decide
  have hsep : ∀ (i k : ℕ) (hi : i < ([baseDet 1 10 10 5 5, baseDet 2 40 10 5 5]).length)
      (hk : k < ([baseDet 1 10 10 5 5, baseDet 2 40 10 5 5]).length), i ≠ k →
      withinTolerance 5 (([baseDet 1 10 10 5 5, baseDet 2 40 10 5 5]).get ⟨i, hi⟩)
        (toCorrectedBox (([baseDet 1 10 10 5 5, baseDet 2 40 10 5 5]).get ⟨k, hk⟩)) =
        false := by
    intro i k hi hk hik
    simp only [List.length_cons, List.length_nil] at hi hk
    interval_cases i <;> interval_cases k <;>
      first
        | exact absurd rfl hik
        | norm_num [withinTolerance, toCorrectedBox, baseDet]
  have h := c3_round_trip_unchanged 7 100 1 [baseDet 1 10 10 5 5, baseDet 2 40 10 5 5]
    hall hsep
  exact ⟨h.1, h.2.2.2.1⟩

/-- C3 counterexample: two AI detections 2 percentage points apart in x (both
within the 5-point tolerance of each other) reconciled against exactly their
own boxes: first-fit without exclusion matches both corrected boxes to the
first detection, so the run reports one `unchanged`, one `moved` and one
`deleted` instead of `{unchanged: 2}`, and the second detection's `isDeleted`
flag flips to true. -/
theorem c3_counterexample :
    (save_corrections 7 100 1 [baseDet 1 10 10 5 5, baseDet 2 12 10 5 5]
        [toCorrectedBox (baseDet 1 10 10 5 5), toCorrectedBox (baseDet 2 12 10 5 5)]).stats =
      CorrectionStats.mk 1 0 1 0 1 ∧
    ((save_corrections 7 100 1 [baseDet 1 10 10 5 5, baseDet 2 12 10 5 5]
        [toCorrectedBox (baseDet 1 10 10 5 5),
         toCorrectedBox (baseDet 2 12 10 5 5)]).dets.get? 1).map Detection.is_deleted =
      some true := by
  constructor <;>
    norm_num [save_corrections, reconcileState, initState, aiCandidateIdx,
      processCorrectedBox, find_matching_ai_box, matchesBox, withinTolerance,
      movedB, resizedB, matchUpdate, applyMoveResize, bumpMatchedStats,
      markDeletedPass, markDeletedStep, markDeleted, toCorrectedBox, baseDet,
      classifyCorrection, List.find?, List.range_succ]

/-! ## C9: the colour classifier -/

theorem lookupColorTable_mem_vocabulary (h s v : ℕ) (name : String)
    (hl : lookupColorTable h s v = some name) : name ∈ colorVocabulary := by
  obtain ⟨entry, hmem, hf⟩ := List.exists_of_findSome?_eq_some hl
  have hname : name = entry.1 := by
    by_cases h1 : entry.1 ∈ ["white", "gray", "black", "pink"]
    · simp [h1] at hf
    · by_cases h2 : entry.2.any (fun q => hsvInRange h s v q.1 q.2) = true
      · rw [if_neg h1, if_pos h2] at hf
        exact (Option.some.injEq _ _ ▸ hf).symm
      · rw [if_neg h1, if_neg h2] at hf
        exact absurd hf (by simp)
  have hvocab : ∀ e ∈ colorNamesTable, e.1 ∈ colorVocabulary := by decide
  exact hname ▸ hvocab entry hmem

theorem match_color_name_mem_vocabulary (h s v : ℕ) :
    match_color_name h s v ∈ colorVocabulary := by
  unfold match_color_name
  repeat' split
  all_goals try decide
  all_goals rename_i heq
  all_goals exact lookupColorTable_mem_vocabulary h s v _ heq

theorem match_color_name_ne_unknown (h s v : ℕ) :
    match_color_name h s v ≠ "unknown" := by
  have hmem := match_color_name_mem_vocabulary h s v
  have : ∀ x ∈ colorVocabulary, x ≠ "unknown" := by decide
  exact this _ hmem

/-- C9: for every input pixel sample, the colour classifier returns
`"unknown"` exactly when the sample set is empty, and otherwise a label from
the closed vocabulary {red, orange, yellow, green, cyan, blue, purple, pink,
white, gray, black, brown}; it is a pure function, so identical samples yield
identical labels. -/
theorem c9_color_classifier_closed_vocabulary (toHSV : List Pixel → ℕ × ℕ × ℕ)
    (pixels : List Pixel) :
    (get_dominant_color toHSV pixels = "unknown" ↔ pixels = []) ∧
    (pixels ≠ [] → get_dominant_color toHSV pixels ∈ colorVocabulary) ∧
    (∀ sample2 : List Pixel, pixels = sample2 →
      get_dominant_color toHSV pixels = get_dominant_color toHSV sample2) := by
  refine ⟨⟨?_, ?_⟩, ?_, ?_⟩
  · intro hu
    by_contra hne
    have hlen : pixels.length ≠ 0 := by simpa using hne
    unfold get_dominant_color at hu
    rw [if_neg hlen] at hu
    exact match_color_name_ne_unknown _ _ _ hu
  · intro he
    subst he
    rfl
  · intro hne
    have hlen : pixels.length ≠ 0 := by simpa using hne
    unfold get_dominant_color
    rw [if_neg hlen]
    exact match_color_name_mem_vocabulary _ _ _
  · intro sample2 he
    rw [he]

theorem c9_color_classifier_closed_vocabulary_witness :
    ([⟨10, 10, 10⟩] : List Pixel) ≠ [] ∧
    get_dominant_color (fun _ => (0, 0, 0)) [⟨10, 10, 10⟩] ∈ colorVocabulary :=
  ⟨by decide,
   (c9_color_classifier_closed_vocabulary (fun _ => (0, 0, 0)) [⟨10, 10, 10⟩]).2.1
     (by decide)⟩

/-! ## C2: the colour-breakdown sum invariant -/

theorem extractColorStep_sum (useCustom : Bool) (w h : ℕ) (domColor : YoloDet → String)
    (counts : List (String × ℕ)) (d : YoloDet)
    (hd : yoloContributes useCustom w h d = true) :
    breakdownSum (extractColorStep useCustom w h domColor counts d) =
      breakdownSum counts + 1 := by
  unfold yoloContributes at hd
  unfold extractColorStep
  by_cases h1 : useCustom && classTruthy d
  · rw [if_pos h1]
    exact incColor_breakdownSum _ _
  · have h2 : roiNonempty w h d = true := by
      rcases Bool.or_eq_true_iff.mp hd with h | h
      · exact absurd h h1
      · exact h
    rw [if_neg h1, if_pos h2]
    exact incColor_breakdownSum _ _

theorem extract_colors_sum (useCustom : Bool) (w h : ℕ) (domColor : YoloDet → String)
    (dets : List YoloDet) (hall : ∀ d ∈ dets, yoloContributes useCustom w h d = true) :
    breakdownSum (extract_colors_from_boxes useCustom w h domColor dets) = dets.length := by
  unfold extract_colors_from_boxes
  suffices hgen : ∀ counts : List (String × ℕ),
      breakdownSum (dets.foldl (extractColorStep useCustom w h domColor) counts) =
        breakdownSum counts + dets.length by
    simpa [breakdownSum] using hgen []
  induction dets with
  | nil => intro counts; simp
  | cons d rest ih =>
    intro counts
    have hd : yoloContributes useCustom w h d = true := hall d (by simp)
    have hrest : ∀ x ∈ rest, yoloContributes useCustom w h x = true :=
      fun x hx => hall x (by simp [hx])
    simp only [List.foldl_cons]
    rw [ih hrest, extractColorStep_sum useCustom w h domColor counts d hd]
    simp only [List.length_cons]
    omega

theorem cageColorStep_sum (w h : ℕ) (samplePos : Circle → ℕ → ℤ × ℤ)
    (classify : List (ℤ × ℤ) → String) (counts : List (String × ℕ)) (c : Circle)
    (hc : (circleSamplePts w h samplePos c).isEmpty = false) :
    breakdownSum (cageColorStep w h samplePos classify counts c) =
      breakdownSum counts + 1 := by
  unfold cageColorStep
  simp only [hc, Bool.false_eq_true, if_false]
  exact incColor_breakdownSum _ _

theorem cage_color_counts_sum (w h : ℕ) (samplePos : Circle → ℕ → ℤ × ℤ)
    (classify : List (ℤ × ℤ) → String) (rolls : List Circle)
    (hall : ∀ c ∈ rolls, (circleSamplePts w h samplePos c).isEmpty = false) :
    breakdownSum (cage_color_counts w h samplePos classify rolls) = rolls.length := by
  unfold cage_color_counts
  suffices hgen : ∀ counts : List (String × ℕ),
      breakdownSum (rolls.foldl (cageColorStep w h samplePos classify) counts) =
        breakdownSum counts + rolls.length by
    simpa [breakdownSum] using hgen []
  induction rolls with
  | nil => intro counts; simp
  | cons c rest ih =>
    intro counts
    have hc := hall c (by simp)
    have hrest : ∀ x ∈ rest, (circleSamplePts w h samplePos x).isEmpty = false :=
      fun x hx => hall x (by simp [hx])
    simp only [List.foldl_cons]
    rw [ih hrest, cageColorStep_sum w h samplePos classify counts c hc]
    simp only [List.length_cons]
    omega

/-- C2 (amended): in every producing path of `analyze`, `totalCount` equals
the number of boxes/circles in the result; `sum(colorBreakdown.values())`
equals `totalCount` unconditionally on the external-vision path, and on the
learned-model and geometric paths provided every detection contributes a
colour sample (custom class label present or non-empty `roi`; at least one
in-bounds ring sample).  A learned-model detection with an empty box interior
breaks the sum equality (see the counterexample), so the unconditional claim
fails. -/
theorem c2_breakdown_sum_invariant :
    (∀ (cnt : ℕ) (color : String) (circles : List Circle) (r : DetResult),
      count_with_mistral_result cnt color circles = some r →
      breakdownSum r.color_breakdown = r.total_threads ∧
      r.total_threads = r.detected_circles.length) ∧
    (∀ (useCustom : Bool) (w h : ℕ) (domColor : YoloDet → String) (dets : List YoloDet),
      (yolo_detection_result useCustom w h domColor dets).total_threads =
        (yolo_detection_result useCustom w h domColor dets).detected_circles.length ∧
      ((∀ d ∈ dets, yoloContributes useCustom w h d = true) →
        breakdownSum (yolo_detection_result useCustom w h domColor dets).color_breakdown =
          (yolo_detection_result useCustom w h domColor dets).total_threads)) ∧
    (∀ (w h : ℕ) (region : Option CageBounds) (rolls : List Circle)
      (samplePos : Circle → ℕ → ℤ × ℤ) (classify : List (ℤ × ℤ) → String),
      (cage_first_detection_result w h region rolls samplePos classify).total_threads =
        (cage_first_detection_result w h region rolls samplePos classify).detected_circles.length ∧
      ((∀ c ∈ rolls, (circleSamplePts w h samplePos c).isEmpty = false) →
        breakdownSum
            (cage_first_detection_result w h region rolls samplePos classify).color_breakdown =
          (cage_first_detection_result w h region rolls samplePos classify).total_threads)) := by
  refine ⟨?_, ?_, ?_⟩
  · intro cnt color circles r hr
    unfold count_with_mistral_result at hr
    by_cases hc : 0 < cnt
    · rw [if_pos hc] at hr
      obtain rfl : _ = r := Option.some.injEq _ _ ▸ hr
      refine ⟨?_, rfl⟩
      simp [breakdownSum]
    · rw [if_neg hc] at hr
      exact absurd hr (by simp)
  · intro useCustom w h domColor dets
    refine ⟨by simp [yolo_detection_result], ?_⟩
    intro hall
    simpa [yolo_detection_result] using extract_colors_sum useCustom w h domColor dets hall
  · intro w h region rolls samplePos classify
    cases region with
    | none => exact ⟨rfl, fun _ => rfl⟩
    | some b =>
      refine ⟨by simp [cage_first_detection_result], ?_⟩
      intro hall
      simpa [cage_first_detection_result] using
        cage_color_counts_sum w h samplePos classify rolls hall

theorem c2_breakdown_sum_invariant_witness :
    (count_with_mistral_result 3 "pink" [⟨50, 50, 10⟩] =
        some (DetResult.mk 1 [("pink", 1)] [⟨50, 50, 10⟩] "Vision Detection (1 rolls)") ∧
      breakdownSum
          (DetResult.mk 1 [("pink", 1)] [⟨50, 50, 10⟩]
            "Vision Detection (1 rolls)").color_breakdown =
        (DetResult.mk 1 [("pink", 1)] [⟨50, 50, 10⟩]
          "Vision Detection (1 rolls)").total_threads) ∧
    ((∀ d ∈ [(⟨0, 0, 4, 4, none⟩ : YoloDet)], yoloContributes false 10 10 d = true) ∧
      breakdownSum
          (yolo_detection_result false 10 10 (fun _ => "pink")
            [⟨0, 0, 4, 4, none⟩]).color_breakdown =
        (yolo_detection_result false 10 10 (fun _ => "pink")
          [⟨0, 0, 4, 4, none⟩]).total_threads) ∧
    ((∀ c ∈ [(⟨5, 5, 2⟩ : Circle)],
        (circleSamplePts 10 10 (fun c _ => (c.cx, c.cy)) c).isEmpty = false) ∧
      breakdownSum
          (cage_first_detection_result 10 10 (some ⟨0, 0, 10, 10⟩) [⟨5, 5, 2⟩]
            (fun c _ => (c.cx, c.cy)) (fun _ => "pink")).color_breakdown =
        (cage_first_detection_result 10 10 (some ⟨0, 0, 10, 10⟩) [⟨5, 5, 2⟩]
          (fun c _ => (c.cx, c.cy)) (fun _ => "pink")).total_threads) := by
  refine ⟨⟨by decide, ?_⟩, ⟨by decide, ?_⟩, ⟨by decide, ?_⟩⟩
  · exact (c2_breakdown_sum_invariant.1 3 "pink" [⟨50, 50, 10⟩]
      (DetResult.mk 1 [("pink", 1)] [⟨50, 50, 10⟩] "Vision Detection (1 rolls)")
      (by decide)).1
  · exact (c2_breakdown_sum_invariant.2.1 false 10 10 (fun _ => "pink")
      [⟨0, 0, 4, 4, none⟩]).2 (by decide)
  · exact (c2_breakdown_sum_invariant.2.2 10 10 (some ⟨0, 0, 10, 10⟩) [⟨5, 5, 2⟩]
      (fun c _ => (c.cx, c.cy)) (fun _ => "pink")).2 (by decide)

/-- C2 counterexample: a learned-model (YOLO) detection with a zero-width
bounding box is counted in `totalCount` but contributes no colour, so
`sum(colorBreakdown.values()) ≠ totalCount` for a result actually returned by
`analyze_image`. -/
theorem c2_counterexample :
    analyze_image true (Except.ok none) true false 100 100 (fun _ => "pink")
        (Except.ok [⟨10, 10, 10, 20, none⟩]) none [] (fun _ _ => (0, 0))
        (fun _ => "pink") =
      Except.ok (yolo_detection_result false 100 100 (fun _ => "pink")
        [⟨10, 10, 10, 20, none⟩]) ∧
    (yolo_detection_result false 100 100 (fun _ => "pink")
        [⟨10, 10, 10, 20, none⟩]).total_threads = 1 ∧
    breakdownSum (yolo_detection_result false 100 100 (fun _ => "pink")
        [⟨10, 10, 10, 20, none⟩]).color_breakdown = 0 :=
  ⟨rfl, rfl, rfl⟩

/-! ## C8: failure semantics of `analyze_image` -/

/-- C8: `analyze_image` reports an error to the caller exactly when the input
image could not be decoded; an exception inside the external-vision stage or
the learned-model stage is treated as "no result" for that stage (identical
to the stage returning nothing) and the pipeline continues; and an image with
no detectable cage region still yields a `totalCount = 0` result instead of
raising. -/
theorem c8_failure_semantics
    (mistralStage : Except Unit (Option (ℕ × String × List Circle)))
    (useYolo useCustom : Bool) (w h : ℕ) (domColor : YoloDet → String)
    (yoloStage : Except Unit (List YoloDet)) (region : Option CageBounds)
    (rolls : List Circle) (samplePos : Circle → ℕ → ℤ × ℤ)
    (classify : List (ℤ × ℤ) → String) :
    (∀ decoded : Bool,
      (∃ e, analyze_image decoded mistralStage useYolo useCustom w h domColor yoloStage
          region rolls samplePos classify = Except.error e) ↔ decoded = false) ∧
    (analyze_image true (Except.error ()) useYolo useCustom w h domColor yoloStage
        region rolls samplePos classify =
      analyze_image true (Except.ok none) useYolo useCustom w h domColor yoloStage
        region rolls samplePos classify) ∧
    (analyze_image true mistralStage useYolo useCustom w h domColor (Except.error ())
        region rolls samplePos classify =
      analyze_image true mistralStage useYolo useCustom w h domColor (Except.ok [])
        region rolls samplePos classify) ∧
    (analyze_image true (Except.error ()) useYolo useCustom w h domColor (Except.error ())
        none rolls samplePos classify =
      Except.ok (cage_first_detection_result w h none rolls samplePos classify) ∧
      (cage_first_detection_result w h none rolls samplePos classify).total_threads = 0) := by
  refine ⟨?_, ?_, ?_, ?_, ?_⟩
  · intro decoded
    constructor
    · rintro ⟨e, he⟩
      by_contra hd
      have hd' : decoded = true := by
        cases decoded
        · exact absurd rfl hd
        · rfl
      subst hd'
      unfold analyze_image at he
      simp only [Bool.not_true, Bool.false_eq_true, if_false] at he
      rcases hm : (match mistralStage with
        | Except.error _ => (none : Option DetResult)
        | Except.ok none => none
        | Except.ok (some (cnt, color, circles)) =>
          match count_with_mistral_result cnt color circles with
          | some r => if 0 < r.total_threads then some r else none
          | none => none) with _ | r
      · rw [hm] at he
        rcases hy : (if useYolo then
            match yoloStage with
            | Except.error _ => (none : Option DetResult)
            | Except.ok dets =>
              if 0 < dets.length then some (yolo_detection_result useCustom w h domColor dets)
              else none
          else none) with _ | r'
        · rw [hy] at he
          exact absurd he (by simp)
        · rw [hy] at he
          exact absurd he (by simp)
      · rw [hm] at he
        exact absurd he (by simp)
    · rintro rfl
      exact ⟨"Could not read image", rfl⟩
  · rfl
  · cases mistralStage with
    | error e => rfl
    | ok o =>
      cases o with
      | none => rfl
      | some t =>
        obtain ⟨cnt, color, circles⟩ := t
        unfold analyze_image
        cases hres : count_with_mistral_result cnt color circles with
        | none => simp [hres]
        | some r =>
          by_cases hr : 0 < r.total_threads
          · simp [hres, hr]
          · simp [hres, hr]
  · cases useYolo <;> rfl
  · rfl

/-! ## C7: minimum inter-centre distance -/

theorem nms_fold_pairwise (minDist : Option ℚ) (circles : List Circle) :
    ∀ acc : List Circle,
      acc.Pairwise (fun k c => distBelow c k (nmsThreshold minDist c) = false) →
      (circles.foldl (nmsStep minDist) acc).Pairwise
        (fun k c => distBelow c k (nmsThreshold minDist c) = false) := by
  induction circles with
  | nil => intro acc h; simpa using h
  | cons c rest ih =>
    intro acc hacc
    simp only [List.foldl_cons]
    apply ih
    unfold nmsStep
    by_cases hc : acc.any (fun k => distBelow c k (nmsThreshold minDist c)) = true
    · rw [if_pos hc]; exact hacc
    · rw [if_neg hc]
      rw [List.pairwise_append]
      refine ⟨hacc, by simp, ?_⟩
      intro k hk c' hc'
      have hc'' : c' = c := by simpa using hc'
      subst hc''
      simp only [List.any_eq_true, not_exists, not_and] at hc
      have := fun hmem => hc k hmem
      simpa using this hk

theorem apply_circle_nms_pairwise (circles : List Circle) (d : ℚ) :
    (apply_circle_nms circles (some d)).Pairwise
      (fun k c => distBelow c k (nmsThreshold (some d) c) = false) ∨
    (apply_circle_nms circles (some d)).length ≤ 1 := by
  unfold apply_circle_nms
  by_cases hlen : circles.length ≤ 1
  · right; rw [if_pos hlen]; exact hlen
  · left
    rw [if_neg hlen]
    exact nms_fold_pairwise (some d) circles [] (by simp)

theorem distSq_comm (a b : Circle) : distSq a b = distSq b a := by
  unfold distSq; ring

/-- C7 (amended): the grid-from-centers strategy of `GeometricDetector`
applies non-maximum suppression with `min_distance = radius * 1.8`, so no two
circles it returns have centre distance below `1.8 × radius` (stated on
squared distances, equivalent to the source's `sqrt` comparison).  The Hough
strategy (`_hough_detection`) applies no suppression and can return circles
closer than `1.8 × radius` (see the counterexample), so the claim over every
geometric strategy fails. -/
theorem c7_grid_nms_min_distance (centers : List (ℤ × ℤ)) (radius : ℤ)
    (hr : 0 < radius) (i j : ℕ)
    (hi : i < (generate_grid_circles_from_centers centers radius).length)
    (hj : j < (generate_grid_circles_from_centers centers radius).length)
    (hij : i ≠ j) :
    ((radius : ℚ) * (9 / 5)) ^ 2 ≤
      (distSq ((generate_grid_circles_from_centers centers radius).get ⟨i, hi⟩)
        ((generate_grid_circles_from_centers centers radius).get ⟨j, hj⟩) : ℚ) := by
  have hd0 : 0 < (radius : ℚ) * (9 / 5) := by
    have hq : (0 : ℚ) < (radius : ℚ) := by exact_mod_cast hr
    positivity
  have hne : (radius : ℚ) * (9 / 5) ≠ 0 := ne_of_gt hd0
  have hkey : ∀ (a b : Circle),
      distBelow a b (nmsThreshold (some ((radius : ℚ) * (9 / 5))) a) = false →
        ((radius : ℚ) * (9 / 5)) ^ 2 ≤ (distSq a b : ℚ) := by
    intro a b hab
    have hth : nmsThreshold (some ((radius : ℚ) * (9 / 5))) a = (radius : ℚ) * (9 / 5) := by
      simp [nmsThreshold, hne]
    rw [hth] at hab
    unfold distBelow at hab
    simp only [Bool.and_eq_false_iff, decide_eq_false_iff_not, not_le, not_lt] at hab
    rcases hab with hab | hab
    · exact absurd hab (by simp [le_of_lt hd0])
    · exact hab
  rcases apply_circle_nms_pairwise (centers.map fun c => { cx := c.1, cy := c.2, r := radius })
      ((radius : ℚ) * (9 / 5)) with hpw | hlen
  · have hpw' := List.pairwise_iff_get.mp hpw
    rcases Nat.lt_or_ge i j with hij' | hij'
    · have hrel := hpw' ⟨i, hi⟩ ⟨j, hj⟩ hij'
      have hle := hkey _ _ hrel
      rw [distSq_comm] at hle
      exact hle
    · have hij'' : j < i := lt_of_le_of_ne hij' (Ne.symm hij)
      have hrel := hpw' ⟨j, hj⟩ ⟨i, hi⟩ hij''
      exact hkey _ _ hrel
  · exfalso
    have hi' : i < (apply_circle_nms
        (centers.map fun c => { cx := c.1, cy := c.2, r := radius })
        (some ((radius : ℚ) * (9 / 5)))).length := hi
    have hj' : j < (apply_circle_nms
        (centers.map fun c => { cx := c.1, cy := c.2, r := radius })
        (some ((radius : ℚ) * (9 / 5)))).length := hj
    omega

theorem c7_grid_nms_min_distance_witness :
    0 < (20 : ℤ) ∧ (0 : ℕ) ≠ 1 ∧
    ∃ hi : 0 < (generate_grid_circles_from_centers [(0, 0), (100, 0)] 20).length,
    ∃ hj : 1 < (generate_grid_circles_from_centers [(0, 0), (100, 0)] 20).length,
      ((20 : ℤ) : ℚ) * (9 / 5) ^ 2 ≤ ((20 : ℤ) : ℚ) * (9 / 5) ^ 2 ∧
      (((20 : ℤ) : ℚ) * (9 / 5)) ^ 2 ≤
        (distSq ((generate_grid_circles_from_centers [(0, 0), (100, 0)] 20).get ⟨0, hi⟩)
          ((generate_grid_circles_from_centers [(0, 0), (100, 0)] 20).get ⟨1, hj⟩) : ℚ) := by
  have hlen : (generate_grid_circles_from_centers [(0, 0), (100, 0)] 20).length = 2 := by
    norm_num [generate_grid_circles_from_centers, apply_circle_nms, nmsStep, nmsThreshold,
      distBelow, distSq]
  have hi : 0 < (generate_grid_circles_from_centers [(0, 0), (100, 0)] 20).length := by omega
  have hj : 1 < (generate_grid_circles_from_centers [(0, 0), (100, 0)] 20).length := by omega
  exact ⟨by norm_num, by norm_num, hi, hj, le_refl _,
    c7_grid_nms_min_distance [(0, 0), (100, 0)] 20 (by norm_num) 0 1 hi hj (by norm_num)⟩

set_option maxRecDepth 4000 in
/-- C7 counterexample: `_hough_detection` performs no non-maximum
suppression, so with an all-pink mask and a Hough output containing two valid
circles of radius 20 whose centres are 10 pixels apart (10 < 1.8 × 20 = 36)
both circles survive into the returned set. -/
theorem c7_counterexample :
    hough_detection 2000 2000 ⟨0, 0, 1000, 1000⟩ (fun _ _ => true)
        (fun c i =>
          (c.cx + ([12, 10, 6, 0, -6, -11, -12, -11, -6, 0, 6, 10].getD i 0),
           c.cy + ([0, 6, 10, 12, 10, 6, 0, -7, -11, -12, -11, -7].getD i 0)))
        (fun _ _ => some [⟨500, 500, 20⟩, ⟨510, 500, 20⟩]) =
      [⟨500, 500, 20⟩, ⟨510, 500, 20⟩] ∧
    distBelow ⟨500, 500, 20⟩ ⟨510, 500, 20⟩ ((20 : ℚ) * (9 / 5)) = true := by
  constructor
  · decide
  · norm_num [distBelow, distSq]

end ThreadRolls
